import Mathlib

/-!
Shallow embedding of `src/gptj.cpp` (marella/gptj.cpp) and proofs about it.

Modeling conventions:
* text is `List Char`, raw file bytes are `List ℕ` (each entry one byte);
* the C `int32_t`/`size_t` quantities that the verified claims quantify over
  are modeled as `ℕ` (the driver's parameters are non-negative in every claim;
  places where signedness or wrap-around would matter are noted inline);
* `double`/`float` arithmetic is modeled over `ℚ`; the one transcendental the
  sampler uses, `exp`, is an abstract parameter `E : ℚ → ℚ`;
* `std::mt19937` randomness is an oracle `draws : ℕ → ℕ`;
  `std::discrete_distribution` over `n` weights returns an index `< n`,
  modeled as `draw % n`;
* the external tensor engine (ggml) is out of scope per the design document;
  the few of its scalar helpers the loader consults (`ggml_type_size`,
  `ggml_blck_size`) are abstract parameters of the loader model.
-/

/-! Section: vocabulary (`struct gpt_vocab`, gptj.cpp lines 37-44).
`token_to_id` / `id_to_token` are the two `std::map`s; they are modeled as
lookup functions.  `idToToken` is `Option`-valued; the driver's use of
`operator[]` (which default-constructs an empty string for a missing id,
line 952) is modeled with `Option.getD []`. -/

structure GptVocab where
  tokenToId : List Char → Option ℕ
  idToToken : ℕ → Option (List Char)

/-- Substring `word.substr(i, len)` of a `List Char`. -/
def substrL (w : List Char) (i len : ℕ) : List Char := (w.drop i).take len

/-- The apostrophe character (written via its code point). -/
def apos : Char := Char.ofNat 39

/-- POSIX class `[[:alpha:]]` in the C locale: ASCII letters. -/
def isAlphaC (c : Char) : Bool := c.isAlpha

/-- POSIX class `[[:digit:]]` in the C locale: ASCII digits. -/
def isDigitC (c : Char) : Bool := c.isDigit

/-- C `\s` (isspace) characters: space, tab, newline, vertical tab,
form feed, carriage return. -/
def isSpaceC (c : Char) : Bool :=
  (c = ' ') || (c = '\t') || (c = '\n') || (c = Char.ofNat 11) ||
    (c = Char.ofNat 12) || (c = '\r')

/-- The character class of the regex alternative
`[^\s[:alpha:][:digit:]]`: not whitespace, not a letter, not a digit. -/
def isOtherC (c : Char) : Bool := !(isSpaceC c) && !(isAlphaC c) && !(isDigitC c)

/-- Length of a match of the contraction alternatives
`'s|'t|'re|'ve|'m|'ll|'d` at the head of `s` (the first six alternatives of
the segmentation regex at gptj.cpp line 53), `none` if none matches. -/
def contractionLen (s : List Char) : Option ℕ :=
  match s with
  | c :: d :: rest =>
    if c = apos then
      if d = 's' ∨ d = 't' ∨ d = 'm' ∨ d = 'd' then some 2
      else if (d = 'r' ∨ d = 'v') ∧ rest.head? = some 'e' then some 3
      else if d = 'l' ∧ rest.head? = some 'l' then some 3
      else none
    else none
  | _ => none

/-- Length of the maximal run of characters satisfying `p` at the head. -/
def runLen (p : Char → Bool) (s : List Char) : ℕ := (s.takeWhile p).length

/-- Head-of-`l` test used for the greedy optional-space alternatives. -/
def headIs (p : Char → Bool) (l : List Char) : Bool :=
  match l with
  | [] => false
  | d :: _ => p d

/-- Length of the ECMAScript-leftmost match of the segmentation regex
`'s|'t|'re|'ve|'m|'ll|'d| ?[[:alpha:]]+| ?[[:digit:]]+| ?[^\s[:alpha:][:digit:]]+|\s+(?!\S)|\s+`
(gptj.cpp line 53) at the head of `s`.  Every non-empty string matches at
position 0 (letters/digits by the run alternatives, whitespace by the last
two, everything else by the "other" run), so `std::regex_search`'s match
always starts at the head and its prefix is empty.  The alternatives are
tried in order; `?` and `+` are greedy with backtracking, which for
`\s+(?!\S)` means: the whole whitespace run if it reaches the end of the
string, one character less if it is followed by a non-space (failing when the
run has length 1, in which case the final `\s+` matches that single char). -/
def matchLen (s : List Char) : ℕ :=
  match contractionLen s with
  | some k => k
  | none =>
    match s with
    | [] => 0
    | c :: rest =>
      if (c = ' ') && headIs isAlphaC rest then 1 + runLen isAlphaC rest
      else if isAlphaC c then runLen isAlphaC s
      else if (c = ' ') && headIs isDigitC rest then 1 + runLen isDigitC rest
      else if isDigitC c then runLen isDigitC s
      else if (c = ' ') && headIs isOtherC rest then 1 + runLen isOtherC rest
      else if isOtherC c then runLen isOtherC s
      else
        let L := runLen isSpaceC s
        if s.length ≤ L then L
        else if 2 ≤ L then L - 1
        else 1

/-- The `regex_search` loop of `gpt_tokenize` (gptj.cpp lines 51-66): the
match at the head is pushed as a word and the search continues on the
suffix.  `fuel` bounds the number of iterations; every match is non-empty so
`s.length` steps always suffice. -/
def splitGo : ℕ → List Char → List (List Char)
  | 0, _ => []
  | _, [] => []
  | fuel + 1, s =>
    let k := matchLen s
    s.take k :: splitGo fuel (s.drop k)

/-- The word segmentation phase of `gpt_tokenize`. -/
def splitWords (s : List Char) : List (List Char) := splitGo s.length s

/-- The inner descending scan `int j = n; while (j > i) ...` of
`gpt_tokenize` (gptj.cpp lines 79-90): try the substrings starting at `i`
from the longest down; on the first hit return the new offset `j` together
with the id.  `k` is `j - i`. -/
def findLongestGo (v : GptVocab) (w : List Char) (i : ℕ) : ℕ → Option (ℕ × ℕ)
  | 0 => none
  | k + 1 =>
    match v.tokenToId (substrL w i (k + 1)) with
    | some id => some (i + (k + 1), id)
    | none => findLongestGo v w i k

/-- Longest vocabulary hit starting at offset `i` of word `w`. -/
def findLongest (v : GptVocab) (w : List Char) (i : ℕ) : Option (ℕ × ℕ) :=
  findLongestGo v w i (w.length - i)

/-- The per-word `while (i < n)` loop of `gpt_tokenize` (gptj.cpp lines
77-108), returning the emitted ids and, separately, the substrings reported
as unknown on stderr (line 104).  Faithful detail: after a successful match
that does not consume the whole word, `i` was just set to `j`, so the
`if (j == i)` branch runs and the single character at the new offset is
consumed as a length-1 token (or reported unknown) without trying longer
substrings first.  `fuel` bounds the iterations; the offset grows by at
least one per iteration so `w.length` always suffices. -/
def wordTokAux (v : GptVocab) (w : List Char) : ℕ → ℕ → List ℕ × List (List Char)
  | 0, _ => ([], [])
  | fuel + 1, i =>
    if i < w.length then
      match findLongest v w i with
      | some ji =>
        if w.length ≤ ji.1 then ([ji.2], [])
        else
          match v.tokenToId (substrL w ji.1 1) with
          | some id2 =>
            let r := wordTokAux v w fuel (ji.1 + 1)
            (ji.2 :: id2 :: r.1, r.2)
          | none =>
            let r := wordTokAux v w fuel (ji.1 + 1)
            (ji.2 :: r.1, substrL w ji.1 1 :: r.2)
      | none =>
        match v.tokenToId (substrL w i 1) with
        | some id2 =>
          let r := wordTokAux v w fuel (i + 1)
          (id2 :: r.1, r.2)
        | none =>
          let r := wordTokAux v w fuel (i + 1)
          (r.1, substrL w i 1 :: r.2)
    else ([], [])

/-- Tokenization of one word. -/
def wordTokens (v : GptVocab) (w : List Char) : List ℕ × List (List Char) :=
  wordTokAux v w w.length 0

/-- `gpt_tokenize` (gptj.cpp lines 46-112) together with the diagnostics it
prints for unknown characters: segmentation followed by the per-word scan;
empty words are skipped (line 72). -/
def gpt_tokenize_full (v : GptVocab) (text : List Char) :
    List ℕ × List (List Char) :=
  (splitWords text).foldl
    (fun acc w =>
      if w = [] then acc
      else
        let r := wordTokens v w
        (acc.1 ++ r.1, acc.2 ++ r.2))
    ([], [])

/-- The token ids returned by `gpt_tokenize`. -/
def gpt_tokenize (v : GptVocab) (text : List Char) : List ℕ :=
  (gpt_tokenize_full v text).1

/-! Section: sampler (`gpt_sample_top_k_top_p`, gptj.cpp lines 114-196). -/

/-- Stable insertion into a list sorted by strictly descending first
component: `x` is placed before the first element whose key is not greater
than `x`'s, so among equal keys an element inserted later (which, in
`insortDesc`'s right fold, is the one that originated earlier in the input)
comes first. -/
def insHelper (x : ℚ × ℕ) : List (ℚ × ℕ) → List (ℚ × ℕ)
  | [] => [x]
  | h :: t => if h.1 > x.1 then h :: insHelper x t else x :: h :: t

/-- Descending stable sort by score.  This models the
`std::partial_sort(..., greater-on-first)` call at gptj.cpp lines 136-142
followed by `resize(top_k)` (line 144): the standard only promises that the
first `top_k` positions hold the `top_k` greatest pairs in descending order;
for the tie order we follow the observed libstdc++ heap-select behavior for
the cases exercised here (`top_k = 1`), which keeps the earliest maximal
element first, exactly as a stable descending sort does. -/
def insortDesc (l : List (ℚ × ℕ)) : List (ℚ × ℕ) := l.foldr insHelper []

/-- The scaled `(score, id)` pairs built at gptj.cpp lines 127-133:
`logits[i] * (1/temp)` paired with `i`, for `i < n`. -/
def samplePairs (logits : List ℚ) (temp : ℚ) (n : ℕ) : List (ℚ × ℕ) :=
  (List.range n).map (fun i => (logits.getD i 0 * (1 / temp), i))

/-- The cumulative-sum cutoff scan of the `top_p` branch (gptj.cpp lines
172-183): walking the normalized probabilities, return the index at which the
running sum first reaches `top_p`, if any. -/
def topPCut (top_p : ℚ) : List ℚ → ℚ → ℕ → Option ℕ
  | [], _, _ => none
  | p :: rest, cum, i =>
    let c := cum + p
    if top_p ≤ c then some i else topPCut top_p rest c (i + 1)

/-- The `if (top_p < 1.0f)` truncation (gptj.cpp lines 170-190) applied to
the candidate list: keep the shortest prefix whose cumulative normalized
probability reaches `top_p` (the subsequent renormalization of `probs` only
rescales the sampling weights and is absorbed by the draw oracle). -/
def topPTrunc (top_p : ℚ) (probsN : List ℚ) (cands : List (ℚ × ℕ)) :
    List (ℚ × ℕ) :=
  if top_p < 1 then
    match topPCut top_p probsN 0 0 with
    | some i => cands.take (i + 1)
    | none => cands
  else cands

/-- `gpt_sample_top_k_top_p` (gptj.cpp lines 114-196).  `E` models `exp`,
`n_logits` is `vocab.id_to_token.size()` (the vocabulary is consulted only
for its size), `draw` is the `std::discrete_distribution` draw, reduced
modulo the candidate count to model its in-range guarantee.  `maxl` is the
fold at lines 146-150 (the `-INFINITY` start is realized by folding from the
first element); `probs` and their normalization are lines 152-168. -/
def gpt_sample_top_k_top_p (E : ℚ → ℚ) (n_logits : ℕ) (logits : List ℚ)
    (top_k : ℕ) (top_p temp : ℚ) (draw : ℕ) : ℕ :=
  let logits_id := samplePairs logits temp n_logits
  let sorted := insortDesc logits_id
  let top := sorted.take top_k
  let maxl : ℚ :=
    match top with
    | [] => 0
    | x :: t => t.foldl (fun m p => max m p.1) x.1
  let probs := top.map (fun p => E (p.1 - maxl))
  let sum := probs.foldl (· + ·) 0
  let probsN := probs.map (· / sum)
  let cands := topPTrunc top_p probsN top
  (cands.getD (draw % cands.length) (0, 0)).2

/-! Section: generation driver (`gptj_generate`, gptj.cpp lines 865-967).
The forward pass `gptj_eval` is the model's numeric computation delegated to
the external tensor engine; the driver model abstracts it as an oracle
`evalFn : ℕ → List ℕ → Option (List ℚ)` mapping `(n_past, embd)` to the
logits vector it stores into `logits` (`none` models a `false` return, which
makes the driver fail, line 905-909).  The callback is
`cb : List Char → Bool`; `draws k` is the mt19937 draw consumed by the `k`-th
sampling.  The run result records the observable trace: every evaluator call
`(n_past, input)` in order (the warm-up call included), every sampling event
`(n_past at that moment, chosen id)`, every text passed to the callback, the
final value of `n_past`, and the returned Bool. -/

structure GenParams where
  n_predict : ℕ
  top_k : ℕ
  top_p : ℚ
  temp : ℚ
  n_batch : ℕ

structure GenRun where
  ok : Bool
  evalCalls : List (ℕ × List ℕ)
  samples : List (ℕ × ℕ)
  callbackCalls : List (List Char)
  finalNPast : ℕ
  deriving DecidableEq

structure GenAcc where
  evalCalls : List (ℕ × List ℕ)
  samples : List (ℕ × ℕ)
  callbackCalls : List (List Char)

structure GenCtx where
  vocab : GptVocab
  n_vocab : ℕ
  vocabSize : ℕ
  embd_inp : List ℕ
  bound : ℕ
  params : GenParams
  evalFn : ℕ → List ℕ → Option (List ℚ)
  cb : List Char → Bool
  draws : ℕ → ℕ
  E : ℚ → ℚ

structure GenSt where
  i : ℕ
  n_past : ℕ
  embd : List ℕ
  logits : List ℚ
  k : ℕ

/-- Package an accumulated trace into a run result. -/
def mkRun (acc : GenAcc) (ok : Bool) (np : ℕ) : GenRun :=
  ⟨ok, acc.evalCalls, acc.samples, acc.callbackCalls, np⟩

inductive StepRes where
  | halt (r : GenRun)
  | next (st : GenSt) (acc : GenAcc)

/-- The prompt-batch fill loop `for (int k = i; ...)` of gptj.cpp lines
937-944: push the next prompt token and stop as soon as the batch size
EXCEEDS `n_batch` (the comparison at line 940 runs after the push, so a
batch can reach `n_batch + 1` tokens). -/
def fillBatchGo (n_batch : ℕ) : List ℕ → List ℕ → List ℕ
  | acc, [] => acc
  | acc, t :: rest =>
    let acc2 := acc ++ [t]
    if n_batch < acc2.length then acc2 else fillBatchGo n_batch acc2 rest

/-- The batch of prompt tokens fed starting at offset `i`. -/
def fillBatch (inp : List ℕ) (i n_batch : ℕ) : List ℕ :=
  fillBatchGo n_batch [] (inp.drop i)

/-- The part of one iteration of the generation loop that follows the
evaluator call: lines 912-963 of gptj.cpp.  `st.i` is the loop variable with
the prefill jump `i += embd.size() - 1` (line 945) and the loop increment
`i++` merged into the successor state.  In the decode branch the freshly
sampled token is the only element of `embd`, so the streaming loop at lines
948-957 is a single end-of-text test (id 50256, line 952, short-circuiting
before the callback) followed by one callback invocation; the trailing
`embd.back() == 50256` break (line 960) is checked for both phases. -/
def afterEval (C : GenCtx) (st : GenSt) (acc : GenAcc) (lg : List ℚ) : StepRes :=
  let np := st.n_past + st.embd.length
  if st.i < C.embd_inp.length then
    let batch := fillBatch C.embd_inp st.i C.params.n_batch
    if batch.getLast? = some 50256 then .halt (mkRun acc true np)
    else .next ⟨st.i + batch.length, np, batch, lg, st.k⟩ acc
  else
    let nlg := lg.drop (lg.length - C.n_vocab)
    let id := gpt_sample_top_k_top_p C.E C.vocabSize nlg C.params.top_k
      C.params.top_p C.params.temp (C.draws st.k)
    let acc2 : GenAcc := { acc with samples := acc.samples ++ [(np, id)] }
    if id = 50256 then .halt (mkRun acc2 true np)
    else
      let txt := (C.vocab.idToToken id).getD []
      let acc3 : GenAcc :=
        { acc2 with callbackCalls := acc2.callbackCalls ++ [txt] }
      if C.cb txt = false then .halt (mkRun acc3 true np)
      else if id = 50256 then .halt (mkRun acc3 true np)
      else .next ⟨st.i + 1, np, [id], lg, st.k + 1⟩ acc3

/-- One iteration of the generation loop body (gptj.cpp lines 900-963):
evaluate the pending batch if non-empty (recording the call; a `none` from
the oracle is the `failed to predict` early `return false`, lines 905-909),
then the phase logic of `afterEval`. -/
def genStep (C : GenCtx) (st : GenSt) (acc : GenAcc) : StepRes :=
  if st.embd = [] then afterEval C st acc st.logits
  else
    let acc1 : GenAcc :=
      { acc with evalCalls := acc.evalCalls ++ [(st.n_past, st.embd)] }
    match C.evalFn st.n_past st.embd with
    | none => .halt (mkRun acc1 false st.n_past)
    | some lg => afterEval C st acc1 lg

/-- The `for` loop of gptj.cpp line 900, running while `i < bound` where
`bound` is `embd_inp.size() + params.n_predict` after the clamp of line 891.
`fuel` bounds the iterations; `st.i` grows by at least 1 per iteration, so
`bound` steps always suffice and fuel exhaustion coincides with loop exit. -/
def genLoop (C : GenCtx) : ℕ → GenSt → GenAcc → GenRun
  | 0, st, acc => mkRun acc true st.n_past
  | fuel + 1, st, acc =>
    if C.bound ≤ st.i then mkRun acc true st.n_past
    else
      match genStep C st acc with
      | .halt r => r
      | .next st2 acc2 => genLoop C fuel st2 acc2

/-- `gptj_generate` (gptj.cpp lines 865-967): tokenize the prompt (line 889),
clamp `n_predict` to `n_ctx - prompt_length` (line 891; the resulting loop
bound `P + min(n_predict, n_ctx - P)` is never negative for the non-negative
`n_predict` modeled here, so the `size_t` conversion in the loop condition
does not wrap), issue the memory-probing warm-up call
`gptj_eval(model, n_threads, 0, 0, 1, 2, 3, ...)` of line 897 (its Bool
result is ignored; the logits it leaves behind seed the loop), then run the
loop from `i = 0`, `n_past = 0`, empty `embd`.  `n_vocab` is
`model.hparams.n_vocab` (the logits offset at line 928) and `vocabSize` is
`vocab.id_to_token.size()` (the count read by the sampler). -/
def gptj_generate_run (vocab : GptVocab) (n_vocab vocabSize n_ctx : ℕ)
    (params : GenParams) (evalFn : ℕ → List ℕ → Option (List ℚ))
    (cb : List Char → Bool) (draws : ℕ → ℕ) (E : ℚ → ℚ)
    (prompt : List Char) : GenRun :=
  let embd_inp := gpt_tokenize vocab prompt
  let P := embd_inp.length
  let bound : ℕ :=
    ((P : ℤ) + min (params.n_predict : ℤ) ((n_ctx : ℤ) - (P : ℤ))).toNat
  let lg0 := (evalFn 0 [0, 1, 2, 3]).getD []
  genLoop
    ⟨vocab, n_vocab, vocabSize, embd_inp, bound, params, evalFn, cb, draws, E⟩
    bound ⟨0, 0, [], lg0, 0⟩ ⟨[(0, [0, 1, 2, 3])], [], []⟩

/-- The `mem_per_token` update at the end of `gptj_eval` (gptj.cpp lines
828-831): it is written only when it was previously zero, from the arena
bytes used divided by the input length `N`. -/
def gptj_eval_mem_update (mem_per_token N used : ℕ) : ℕ :=
  if mem_per_token = 0 then used / N else mem_per_token

/-! Section: model loader (`gptj_model_load`, gptj.cpp lines 321-598).
The file is a byte list.  `std::ifstream::read` of `k` bytes consumes
`min(k, remaining)` bytes; a read that runs past the end sets the eof flag,
which the record loop checks only after the three header reads (line 544).
For reads the code performs after that check, a truncated file leaves the
destination partially overwritten; no verified claim depends on a record
truncated after its header, and those reads are modeled as zero-filled
(`std::string(length, 0)` is genuinely zero-filled, so the name read is
exact). -/

/-- Little-endian value of a byte list. -/
def leDecode (bs : List ℕ) : ℕ := bs.foldr (fun b acc => b + 256 * acc) 0

/-- Reinterpret a 32-bit unsigned value as `int32_t` (two's complement). -/
def asI32 (v : ℕ) : ℤ := if v < 2 ^ 31 then (v : ℤ) else (v : ℤ) - 2 ^ 32

/-- Read one little-endian `int32_t`: value and remaining bytes. -/
def readI32 (bs : List ℕ) : ℤ × List ℕ := (asI32 (leDecode (bs.take 4)), bs.drop 4)

/-- Read `n` consecutive `int32_t` values (the `ne[i]` loop, lines 551-555). -/
def readDims : ℕ → List ℕ → List ℤ × List ℕ
  | 0, bs => ([], bs)
  | n + 1, bs =>
    let v := readI32 bs
    let r := readDims n v.2
    (v.1 :: r.1, r.2)

/-- A ggml tensor as the loader sees it: leading extents `ne[0]`, `ne[1]`,
the storage type tag, and the raw data buffer. -/
structure GTensor where
  ne0 : ℤ
  ne1 : ℤ
  ttype : ℤ
  buf : List ℕ
  deriving DecidableEq

/-- `ggml_nelements` for the 1-d/2-d tensors the loader allocates:
the product of the two leading extents. -/
def g_nelements (t : GTensor) : ℤ := t.ne0 * t.ne1

/-- `ggml_nbytes`: element count times `ggml_type_size` divided by
`ggml_blck_size` (block-quantized types pack a block into one unit).
`ts`/`bls` are the external engine's per-type tables, abstract here. -/
def g_nbytes (ts : ℤ → ℕ) (bls : ℤ → ℕ) (t : GTensor) : ℕ :=
  (g_nelements t).toNat * ts t.ttype / bls t.ttype

/-- Parsed fields of one tensor record header (lines 536-542): `n_dims`,
`length` (of the name), `ttype`. -/
def recNDims (bs : List ℕ) : ℤ := (readI32 bs).1

def recNameLen (bs : List ℕ) : ℤ := (readI32 (bs.drop 4)).1

def recTType (bs : List ℕ) : ℤ := (readI32 (bs.drop 8)).1

/-- The dims of the record plus the bytes remaining after them. -/
def recDims (bs : List ℕ) : List ℤ × List ℕ :=
  readDims (recNDims bs).toNat (bs.drop 12)

/-- Running product `nelements` (line 549, 554) over the read dims. -/
def recNElements (bs : List ℕ) : ℤ := (recDims bs).1.foldl (· * ·) 1

/-- `ne[0]` and `ne[1]` after the dim loop; unread entries keep their
initializer 1 (line 550). -/
def recNe0 (bs : List ℕ) : ℤ := (recDims bs).1.getD 0 1

def recNe1 (bs : List ℕ) : ℤ := (recDims bs).1.getD 1 1

/-- The record's tensor name (lines 557-558): `length` bytes, zero-filled
where the file is short, and the bytes remaining after it. -/
def recName (bs : List ℕ) : List ℕ :=
  let r := (recDims bs).2.take (recNameLen bs).toNat
  r ++ List.replicate ((recNameLen bs).toNat - r.length) 0

def recRest (bs : List ℕ) : List ℕ := (recDims bs).2.drop (recNameLen bs).toNat

/-- Overwrite the tensor's buffer with the payload (line 589): `nb` bytes
are requested; a short stream overwrites only a prefix. -/
def copyPayload (t : GTensor) (nb : ℕ) (bs : List ℕ) : GTensor :=
  { t with buf := bs.take nb ++ t.buf.drop (bs.take nb).length }

/-- Replace the named tensor in the registry. -/
def updTensor (reg : List (List ℕ × GTensor)) (nm : List ℕ) (t : GTensor) :
    List (List ℕ × GTensor) :=
  reg.map fun p => if p.1 = nm then (p.1, t) else p

/-- The tensor-record loop of `gptj_model_load` (gptj.cpp lines 529-593).
The registry `reg` is `model.tensors` (name-keyed, built at lines 447-510).
One iteration: if fewer than 12 bytes remain, one of the three header reads
hit end-of-file and the loop breaks with overall success (lines 540-547);
otherwise the record is parsed and validated: unknown name (line 560),
element count (line 567), leading shape (line 573) and byte size computed
from the record's type with block packing (line 582) each abort the whole
load with failure; when all checks pass the payload bytes are copied
verbatim into the tensor's buffer and the loop continues after them.
`fuel` bounds the iterations; each record consumes at least 12 bytes, so
`bs.length` steps always suffice. -/
def loadTensorsGo (ts bls : ℤ → ℕ) :
    ℕ → List (List ℕ × GTensor) → List ℕ → Bool × List (List ℕ × GTensor)
  | 0, reg, _ => (true, reg)
  | fuel + 1, reg, bs =>
    if bs.length < 12 then (true, reg)
    else
      match List.lookup (recName bs) reg with
      | none => (false, reg)
      | some t =>
        if g_nelements t ≠ recNElements bs then (false, reg)
        else if t.ne0 ≠ recNe0 bs ∨ t.ne1 ≠ recNe1 bs then (false, reg)
        else
          let bpe := ts (recTType bs)
          if (recNElements bs).toNat * bpe / bls t.ttype ≠ g_nbytes ts bls t then
            (false, reg)
          else
            let nb := g_nbytes ts bls t
            loadTensorsGo ts bls fuel
              (updTensor reg (recName bs) (copyPayload t nb (recRest bs)))
              ((recRest bs).drop nb)

/-- The weight-loading phase on a whole byte stream. -/
def gptj_load_tensors (ts bls : ℤ → ℕ) (reg : List (List ℕ × GTensor))
    (bs : List ℕ) : Bool × List (List ℕ × GTensor) :=
  loadTensorsGo ts bls (bs.length + 1) reg bs

/-- The ggml storage types the loader can derive from the file's format tag
(the external engine's enum, abstracted to the constructors used here). -/
inductive GgmlType where
  | f32 | f16 | q4_0 | q4_1 | q4_2 | q5_0 | q5_1 | q8_0 | count
  deriving DecidableEq

/-- `ggml_ftype_to_ggml_type` (gptj.cpp lines 213-257): map the file's
format tag to a storage type; unknown tags (including `-1` and the
`Q4_1_SOME_F16` tag 4) yield `count`, which the loader rejects. -/
def ggml_ftype_to_ggml_type (ftype : ℤ) : GgmlType :=
  if ftype = 0 then .f32
  else if ftype = 1 then .f16
  else if ftype = 2 then .q4_0
  else if ftype = 3 then .q4_1
  else if ftype = 5 then .q4_2
  else if ftype = 8 then .q5_0
  else if ftype = 9 then .q5_1
  else if ftype = 7 then .q8_0
  else .count

/-- Hyperparameters read at gptj.cpp lines 341-352. -/
structure GHparams where
  n_vocab : ℤ
  n_ctx : ℤ
  n_embd : ℤ
  n_head : ℤ
  n_layer : ℤ
  n_rot : ℤ
  ftype : ℤ
  deriving DecidableEq

/-- Observable resource actions of the loader prefix.  `allocRegion` is the
`ggml_init` call of line 439 that reserves the single region holding every
weight tensor and the KV cache. -/
inductive LoadEvent where
  | allocRegion
  deriving DecidableEq

/-- State the loader prefix hands to the weight-loading phase: hyperparams,
the vocabulary entries (token bytes, id) in file order, the derived weight
storage type, and the unread remainder of the file. -/
structure LoadState where
  hp : GHparams
  vocabEntries : List (List ℕ × ℕ)
  wtype : GgmlType
  rest : List ℕ

/-- Outcome of the loader prefix: success flag, emitted resource events in
order, and the state for the tensor-record phase on success. -/
structure LoadHeaderResult where
  ok : Bool
  events : List LoadEvent
  state : Option LoadState

/-- Read the `n_vocab` vocabulary entries of gptj.cpp lines 366-377:
each is a `uint32_t` length followed by that many bytes; entry index is the
token id. -/
def readVocabGo : ℕ → ℕ → List ℕ → List (List ℕ × ℕ) × List ℕ
  | 0, _, bs => ([], bs)
  | n + 1, idx, bs =>
    let len := leDecode (bs.take 4)
    let w := (bs.drop 4).take len
    let word := w ++ List.replicate (len - w.length) 0
    let r := readVocabGo n (idx + 1) ((bs.drop 4).drop len)
    ((word, idx) :: r.1, r.2)

/-- The prefix of `gptj_model_load` (gptj.cpp lines 321-527) up to and
including the creation of the weight/KV-cache allocation region: magic check
(lines 330-339, compared against `0x67676d6c`; failure returns before
anything is allocated), hyperparameter reads (lines 341-352), vocabulary
count check and entry reads (lines 354-378), storage-type derivation with
rejection of unknown tags (lines 380-388), and then the single `ggml_init`
region reservation (lines 390-445; the size arithmetic uses the external
engine's `ggml_type_sizef` and is not needed by any claim, so only the
allocation event is recorded).  Tensor registration and the KV-cache tensors
(lines 447-527) live inside that same region. -/
def gptj_model_load_header (bs : List ℕ) : LoadHeaderResult :=
  let magic := leDecode (bs.take 4)
  if magic ≠ 0x67676d6c then ⟨false, [], none⟩
  else
    let h1 := readI32 (bs.drop 4)
    let h2 := readI32 h1.2
    let h3 := readI32 h2.2
    let h4 := readI32 h3.2
    let h5 := readI32 h4.2
    let h6 := readI32 h5.2
    let h7 := readI32 h6.2
    let hp : GHparams := ⟨h1.1, h2.1, h3.1, h4.1, h5.1, h6.1, h7.1⟩
    let nv := readI32 h7.2
    if nv.1 ≠ hp.n_vocab then ⟨false, [], none⟩
    else
      let voc := readVocabGo nv.1.toNat 0 nv.2
      let wtype := ggml_ftype_to_ggml_type hp.ftype
      if wtype = .count then ⟨false, [], none⟩
      else ⟨true, [.allocRegion], some ⟨hp, voc.1, wtype, voc.2⟩⟩

/-! Section: concrete fixtures used by witnesses and counterexamples. -/

/-- The toy vocabulary of the end-to-end property: hi ↦ 0, there ↦ 1,
the end-of-text marker ↦ 2. -/
def toyVocab : GptVocab where
  tokenToId := fun w =>
    if w = ['h', 'i'] then some 0
    else if w = ['t', 'h', 'e', 'r', 'e'] then some 1
    else if w = ['<', 'e', 'o', 't', '>'] then some 2
    else none
  idToToken := fun i =>
    if i = 0 then some ['h', 'i']
    else if i = 1 then some ['t', 'h', 'e', 'r', 'e']
    else if i = 2 then some ['<', 'e', 'o', 't', '>']
    else none

/-- The toy prompt. -/
def toyPrompt : List Char := ['h', 'i', ' ', 't', 'h', 'e', 'r', 'e']

/-- A stubbed forward pass that always scores id 2 strictly highest. -/
def stubEval : ℕ → List ℕ → Option (List ℚ) := fun _ _ => some [0, 0, 1]

/-- A single-token vocabulary whose token text `a1` the segmentation regex
splits into two words, so re-encoding it can never look up `a1` itself. -/
def vocabA1 : GptVocab where
  tokenToId := fun w => if w = ['a', '1'] then some 0 else none
  idToToken := fun i => if i = 0 then some ['a', '1'] else none

/-- A vocabulary with no entries at all. -/
def emptyVocab : GptVocab where
  tokenToId := fun _ => none
  idToToken := fun _ => none

/-- The earliest maximal pair of a score/id list: later elements replace the
current best only when strictly greater, so among equal scores the earliest
wins.  This is the head of `insortDesc` on a non-empty list. -/
def firstMaxP : List (ℚ × ℕ) → ℚ × ℕ
  | [] => (0, 0)
  | [x] => x
  | x :: y :: rest =>
    let b := firstMaxP (y :: rest)
    if b.1 > x.1 then b else x

/-- Registry with one 2×1 tensor named by bytes `a` `b`, type tag 0,
an 8-byte buffer. -/
def c8reg : List (List ℕ × GTensor) := [([97, 98], ⟨2, 1, 0, [9, 9, 9, 9, 9, 9, 9, 9]⟩)]

/-- Per-type element sizes for the fixture: type 0 is 4 bytes, others 2. -/
def c8ts : ℤ → ℕ := fun c => if c = 0 then 4 else 2

/-- Block size 1 for every type in the fixture. -/
def c8bls : ℤ → ℕ := fun _ => 1

/-- A well-formed record for the `c8reg` tensor: header (1 dim, name length
2, type 0), dim 2, name bytes, 8 payload bytes. -/
def c8good : List ℕ :=
  [1, 0, 0, 0, 2, 0, 0, 0, 0, 0, 0, 0, 2, 0, 0, 0, 97, 98, 1, 2, 3, 4, 5, 6, 7, 8]

/-- Same header shape but an unregistered name (bytes `a` `c`). -/
def c8unknown : List ℕ :=
  [1, 0, 0, 0, 2, 0, 0, 0, 0, 0, 0, 0, 2, 0, 0, 0, 97, 99, 1, 2, 3, 4, 5, 6, 7, 8]

/-- Element-count mismatch: one dim of extent 3 against a 2-element tensor. -/
def c8badCount : List ℕ :=
  [1, 0, 0, 0, 2, 0, 0, 0, 0, 0, 0, 0, 3, 0, 0, 0, 97, 98, 1, 2, 3, 4, 5, 6, 7, 8]

/-- Shape mismatch with matching element count: dims 1 × 2 against 2 × 1. -/
def c8badShape : List ℕ :=
  [2, 0, 0, 0, 2, 0, 0, 0, 0, 0, 0, 0, 1, 0, 0, 0, 2, 0, 0, 0, 97, 98, 1, 2, 3, 4, 5, 6, 7, 8]

/-- Byte-size mismatch: record type tag 1 has element size 2, so the
record's 2 × 2 = 4 bytes disagree with the tensor's 8. -/
def c8badSize : List ℕ :=
  [1, 0, 0, 0, 2, 0, 0, 0, 1, 0, 0, 0, 2, 0, 0, 0, 97, 98, 1, 2, 3, 4, 5, 6, 7, 8]

/-! Section: theorems.  Helper lemmas first appear next to their first use;
none of the claim-level theorems is used by anything except its own
witness. -/

lemma findLongestGo_eq_none (v : GptVocab) (w : List Char) (i k : ℕ)
    (h : ∀ m, 1 ≤ m → m ≤ k → v.tokenToId (substrL w i m) = none) :
    findLongestGo v w i k = none := by
  induction k with
  | zero => rfl
  | succ k ih =>
    simp only [findLongestGo]
    rw [h (k + 1) (by omega) (le_refl _)]
    exact ih fun m h1 h2 => h m h1 (by omega)

/-- C7 (confirmed): when the per-word scan of `gpt_tokenize` stands at an
offset `i` of the word where no substring starting there — all the way down
to length 1 — is in the vocabulary, the iteration emits no id, reports the
single character `substrL w i 1` as an unknown-token diagnostic, advances by
exactly one character, and tokenization continues with the rest of the word
(the recursive call at offset `i + 1`); the function is total, so the
condition is never a fatal error. -/
theorem gpt_tokenize_unknown_char_skips_one (v : GptVocab) (w : List Char)
    (i fuel : ℕ) (hi : i < w.length)
    (h : ∀ len, 1 ≤ len → i + len ≤ w.length →
      v.tokenToId (substrL w i len) = none) :
    wordTokAux v w (fuel + 1) i =
      ((wordTokAux v w fuel (i + 1)).1,
        substrL w i 1 :: (wordTokAux v w fuel (i + 1)).2) := by
  have hfl : findLongest v w i = none := by
    unfold findLongest
    exact findLongestGo_eq_none v w i (w.length - i)
      (fun m h1 h2 => h m h1 (by omega))
  simp only [wordTokAux, if_pos hi, hfl]
  rw [h 1 (le_refl _) (by omega)]

/-- Witness for C7: the empty vocabulary matches nothing at offset 0 of the
one-character word `z`, and the step drops that character, reports it, and
moves on. -/
theorem gpt_tokenize_unknown_char_skips_one_witness :
    wordTokAux emptyVocab ['z'] 1 0 =
      ((wordTokAux emptyVocab ['z'] 0 1).1,
        substrL ['z'] 0 1 :: (wordTokAux emptyVocab ['z'] 0 1).2) :=
  gpt_tokenize_unknown_char_skips_one emptyVocab ['z'] 0 0 (by decide)
    (fun _ _ _ => rfl)

/-- C5 (corrected) counterexample: the claim asserts that for every token id
in the vocabulary, re-encoding that id's own text yields a non-empty token
sequence starting with that id.  For the vocabulary whose only token is
`a1` (id 0), the segmentation regex splits the text `a1` into the two words
`a` and `1` before any lookup, neither word has any sub-match, and
`gpt_tokenize` returns the empty sequence. -/
theorem gpt_tokenize_roundtrip_counterexample :
    vocabA1.idToToken 0 = some ['a', '1'] ∧
      gpt_tokenize vocabA1 ['a', '1'] = [] := by
  constructor
  · rfl
  · decide

/-- C5 (corrected, amended): if the vocabulary's reverse map sends `id` to
text `w`, the forward map sends `w` back to the same `id` (no duplicate
entry shadows it), and the segmentation step keeps `w` in one piece, then
re-encoding `w` yields exactly `[id]` — in particular a non-empty sequence
whose first id is `id`.  The two extra premises are forced: the
counterexample shows the claim fails when segmentation splits the text, and
a duplicate token text would make the greedy lookup return the other id. -/
theorem gpt_tokenize_roundtrip_first_id (v : GptVocab) (id : ℕ)
    (w : List Char) (hrev : v.idToToken id = some w)
    (hfwd : v.tokenToId w = some id) (hsplit : splitWords w = [w]) :
    gpt_tokenize v w = [id] := by
  have hw : w ≠ [] := by
    intro hnil
    rw [hnil] at hsplit
    exact absurd hsplit (by decide)
  obtain ⟨c, w2, rfl⟩ := List.exists_cons_of_ne_nil hw
  unfold gpt_tokenize gpt_tokenize_full
  rw [hsplit]
  simp only [List.foldl_cons, List.foldl_nil, if_neg hw]
  have hfind : findLongest v (c :: w2) 0 = some (0 + (w2.length + 1), id) := by
    unfold findLongest
    simp only [List.length_cons, Nat.sub_zero, findLongestGo]
    have : substrL (c :: w2) 0 (w2.length + 1) = c :: w2 := by
      simp [substrL]
    rw [this, hfwd]
  unfold wordTokens
  simp only [List.length_cons, wordTokAux, if_pos (Nat.succ_pos w2.length),
    hfind]
  norm_num

/-- C9 (confirmed): when the first four bytes of the model file do not spell
the magic constant `0x67676d6c`, `gptj_model_load` returns failure straight
from the magic check, before the weight allocation region is created — no
event reserving memory for weights or the KV cache is ever emitted. -/
theorem gptj_model_load_bad_magic (bs : List ℕ) (h4 : 4 ≤ bs.length)
    (hm : leDecode (bs.take 4) ≠ 0x67676d6c) :
    (gptj_model_load_header bs).ok = false ∧
      LoadEvent.allocRegion ∉ (gptj_model_load_header bs).events := by
  unfold gptj_model_load_header
  rw [if_pos hm]
  exact ⟨rfl, by simp⟩

/-- Witness for C9: a file of four zero bytes is rejected with no
allocation. -/
theorem gptj_model_load_bad_magic_witness :
    (gptj_model_load_header [0, 0, 0, 0]).ok = false ∧
      LoadEvent.allocRegion ∉ (gptj_model_load_header [0, 0, 0, 0]).events :=
  gptj_model_load_bad_magic [0, 0, 0, 0] (by decide) (by decide)

/-- C8 (confirmed): one iteration of the tensor-record loop of
`gptj_model_load`.  If fewer than 12 bytes remain, a header read hit
end-of-file between records and reading stops cleanly with success.
Otherwise: a name absent from the registry, an element count differing from
the pre-allocated tensor, a differing leading shape, or a byte size
(computed from the record's type tag with block-quantized packing) differing
from the tensor's all abort the load with failure and an unchanged registry;
when every check passes, the payload bytes are copied into the tensor's
buffer — verbatim, when the stream holds them and the buffer has the
allocated size — and the loop continues after the payload. -/
theorem gptj_model_load_record_checks (ts bls : ℤ → ℕ) (fuel : ℕ)
    (reg : List (List ℕ × GTensor)) (bs : List ℕ) :
    (bs.length < 12 → loadTensorsGo ts bls (fuel + 1) reg bs = (true, reg)) ∧
    (List.lookup (recName bs) reg = none → 12 ≤ bs.length →
      loadTensorsGo ts bls (fuel + 1) reg bs = (false, reg)) ∧
    (∀ t, List.lookup (recName bs) reg = some t → 12 ≤ bs.length →
      (g_nelements t ≠ recNElements bs →
        loadTensorsGo ts bls (fuel + 1) reg bs = (false, reg)) ∧
      (t.ne0 ≠ recNe0 bs ∨ t.ne1 ≠ recNe1 bs →
        g_nelements t = recNElements bs →
        loadTensorsGo ts bls (fuel + 1) reg bs = (false, reg)) ∧
      ((recNElements bs).toNat * ts (recTType bs) / bls t.ttype ≠
          g_nbytes ts bls t →
        g_nelements t = recNElements bs →
        ¬(t.ne0 ≠ recNe0 bs ∨ t.ne1 ≠ recNe1 bs) →
        loadTensorsGo ts bls (fuel + 1) reg bs = (false, reg)) ∧
      (g_nelements t = recNElements bs →
        ¬(t.ne0 ≠ recNe0 bs ∨ t.ne1 ≠ recNe1 bs) →
        (recNElements bs).toNat * ts (recTType bs) / bls t.ttype =
          g_nbytes ts bls t →
        loadTensorsGo ts bls (fuel + 1) reg bs =
          loadTensorsGo ts bls fuel
            (updTensor reg (recName bs)
              (copyPayload t (g_nbytes ts bls t) (recRest bs)))
            ((recRest bs).drop (g_nbytes ts bls t)) ∧
        (g_nbytes ts bls t ≤ (recRest bs).length →
          t.buf.length = g_nbytes ts bls t →
          (copyPayload t (g_nbytes ts bls t) (recRest bs)).buf =
            (recRest bs).take (g_nbytes ts bls t)))) := by
  refine ⟨fun hlt => ?_, fun hnone h12 => ?_, fun t hsome h12 => ?_⟩
  · simp only [loadTensorsGo, if_pos hlt]
  · simp only [loadTensorsGo, if_neg (by omega : ¬bs.length < 12), hnone]
  · refine ⟨fun hne => ?_, fun hsh hne => ?_, fun hsz hne hsh => ?_,
      fun hne hsh hsz => ⟨?_, fun hlen hbuf => ?_⟩⟩
    · simp only [loadTensorsGo, if_neg (by omega : ¬bs.length < 12), hsome,
        if_pos hne]
    · simp only [loadTensorsGo, if_neg (by omega : ¬bs.length < 12), hsome,
        if_neg (by simp [hne] : ¬g_nelements t ≠ recNElements bs), if_pos hsh]
    · simp only [loadTensorsGo, if_neg (by omega : ¬bs.length < 12), hsome,
        if_neg (by simp [hne] : ¬g_nelements t ≠ recNElements bs),
        if_neg hsh, if_pos hsz]
    · simp only [loadTensorsGo, if_neg (by omega : ¬bs.length < 12), hsome,
        if_neg (by simp [hne] : ¬g_nelements t ≠ recNElements bs),
        if_neg hsh,
        if_neg (by simp [hsz] :
          ¬(recNElements bs).toNat * ts (recTType bs) / bls t.ttype ≠
            g_nbytes ts bls t)]
    · unfold copyPayload
      simp only
      rw [List.length_take, min_eq_left hlen, List.drop_eq_nil_of_le
        (by omega : t.buf.length ≤ g_nbytes ts bls t), List.append_nil]

/-- Witness for C8: on a one-tensor registry, end-of-file between records
succeeds; an unknown name, a wrong element count, a wrong shape and a wrong
byte size each fail; a well-formed record is copied verbatim and the loop
continues after the payload. -/
theorem gptj_model_load_record_checks_witness :
    loadTensorsGo c8ts c8bls 3 c8reg [] = (true, c8reg) ∧
    loadTensorsGo c8ts c8bls 3 c8reg c8unknown = (false, c8reg) ∧
    loadTensorsGo c8ts c8bls 3 c8reg c8badCount = (false, c8reg) ∧
    loadTensorsGo c8ts c8bls 3 c8reg c8badShape = (false, c8reg) ∧
    loadTensorsGo c8ts c8bls 3 c8reg c8badSize = (false, c8reg) ∧
    loadTensorsGo c8ts c8bls 3 c8reg c8good =
      loadTensorsGo c8ts c8bls 2
        (updTensor c8reg (recName c8good)
          (copyPayload ⟨2, 1, 0, [9, 9, 9, 9, 9, 9, 9, 9]⟩
            (g_nbytes c8ts c8bls ⟨2, 1, 0, [9, 9, 9, 9, 9, 9, 9, 9]⟩)
            (recRest c8good)))
        ((recRest c8good).drop
          (g_nbytes c8ts c8bls ⟨2, 1, 0, [9, 9, 9, 9, 9, 9, 9, 9]⟩)) ∧
    (copyPayload ⟨2, 1, 0, [9, 9, 9, 9, 9, 9, 9, 9]⟩
        (g_nbytes c8ts c8bls ⟨2, 1, 0, [9, 9, 9, 9, 9, 9, 9, 9]⟩)
        (recRest c8good)).buf =
      (recRest c8good).take
        (g_nbytes c8ts c8bls ⟨2, 1, 0, [9, 9, 9, 9, 9, 9, 9, 9]⟩) := by
  refine ⟨(gptj_model_load_record_checks c8ts c8bls 2 c8reg []).1 (by decide),
    (gptj_model_load_record_checks c8ts c8bls 2 c8reg c8unknown).2.1
      (by decide) (by decide),
    ((gptj_model_load_record_checks c8ts c8bls 2 c8reg c8badCount).2.2
      ⟨2, 1, 0, [9, 9, 9, 9, 9, 9, 9, 9]⟩ (by decide) (by decide)).1
      (by decide),
    ((gptj_model_load_record_checks c8ts c8bls 2 c8reg c8badShape).2.2
      ⟨2, 1, 0, [9, 9, 9, 9, 9, 9, 9, 9]⟩ (by decide) (by decide)).2.1
      (by decide) (by decide),
    ((gptj_model_load_record_checks c8ts c8bls 2 c8reg c8badSize).2.2
      ⟨2, 1, 0, [9, 9, 9, 9, 9, 9, 9, 9]⟩ (by decide) (by decide)).2.2.1
      (by decide) (by decide) (by decide),
    (((gptj_model_load_record_checks c8ts c8bls 2 c8reg c8good).2.2
      ⟨2, 1, 0, [9, 9, 9, 9, 9, 9, 9, 9]⟩ (by decide) (by decide)).2.2.2
      (by decide) (by decide) (by decide)).1,
    (((gptj_model_load_record_checks c8ts c8bls 2 c8reg c8good).2.2
      ⟨2, 1, 0, [9, 9, 9, 9, 9, 9, 9, 9]⟩ (by decide) (by decide)).2.2.2
      (by decide) (by decide) (by decide)).2 (by decide) (by decide)⟩

lemma insortDesc_head : ∀ l : List (ℚ × ℕ), l ≠ [] →
    (insortDesc l).head? = some (firstMaxP l) := by
  intro l
  induction l with
  | nil => intro h; exact absurd rfl h
  | cons x l ih =>
    intro _
    cases l with
    | nil => rfl
    | cons y rest =>
      have hL : insortDesc (x :: y :: rest) =
          insHelper x (insortDesc (y :: rest)) := rfl
      have hih := ih (by simp)
      rw [hL]
      cases hE : insortDesc (y :: rest) with
      | nil => rw [hE] at hih; exact absurd hih (by simp)
      | cons b L2 =>
        rw [hE] at hih
        simp only [List.head?] at hih
        have hb : b = firstMaxP (y :: rest) := by
          injection hih
        simp only [insHelper, firstMaxP, ← hb]
        split <;> rfl

lemma insortDesc_length : ∀ l : List (ℚ × ℕ),
    (insortDesc l).length = l.length := by
  have hins : ∀ (x : ℚ × ℕ) (l : List (ℚ × ℕ)),
      (insHelper x l).length = l.length + 1 := by
    intro x l
    induction l with
    | nil => rfl
    | cons h t ih => simp only [insHelper]; split <;> simp [ih]
  intro l
  induction l with
  | nil => rfl
  | cons x l ih =>
    show (insHelper x (insortDesc l)).length = l.length + 1
    rw [hins, ih]

lemma topPTrunc_singleton (tp : ℚ) (probs : List ℚ) (c : ℚ × ℕ) :
    topPTrunc tp probs [c] = [c] := by
  unfold topPTrunc
  split
  · cases topPCut tp probs 0 0 with
    | none => rfl
    | some i => simp
  · rfl

/-- With `top_k = 1` the sampler returns the id of the earliest maximal
scaled score, whatever `E`, `top_p`, `temp` and the random draw are: the
candidate list is the singleton head of the descending sort, which the
`top_p` truncation cannot shrink further. -/
lemma gpt_sample_top_k_one_eq (E : ℚ → ℚ) (n : ℕ) (logits : List ℚ)
    (tp temp : ℚ) (d : ℕ) (hn : n ≠ 0) :
    gpt_sample_top_k_top_p E n logits 1 tp temp d =
      (firstMaxP (samplePairs logits temp n)).2 := by
  have hne : samplePairs logits temp n ≠ [] := by
    unfold samplePairs
    simp [hn, List.range_eq_nil]
  have hhead := insortDesc_head _ hne
  cases hE : insortDesc (samplePairs logits temp n) with
  | nil => rw [hE] at hhead; exact absurd hhead (by simp)
  | cons b L2 =>
    rw [hE] at hhead
    simp only [List.head?] at hhead
    have hb : b = firstMaxP (samplePairs logits temp n) := by injection hhead
    unfold gpt_sample_top_k_top_p
    simp only [hE, List.take_succ_cons, List.take_zero, topPTrunc_singleton]
    simp [hb, Nat.mod_one]

lemma firstMaxP_append_single : ∀ (l : List (ℚ × ℕ)) (x : ℚ × ℕ), l ≠ [] →
    firstMaxP (l ++ [x]) =
      if x.1 > (firstMaxP l).1 then x else firstMaxP l := by
  intro l
  induction l with
  | nil => intro x h; exact absurd rfl h
  | cons a l ih =>
    intro x _
    cases l with
    | nil => simp [firstMaxP]
    | cons z zs =>
      have hstep : firstMaxP (a :: z :: (zs ++ [x])) =
          if (firstMaxP (z :: (zs ++ [x]))).1 > a.1 then
            firstMaxP (z :: (zs ++ [x])) else a := by
        cases zs <;> rfl
      have hcons : (a :: z :: zs) ++ [x] = a :: z :: (zs ++ [x]) := by simp
      have hz : (z :: zs) ++ [x] = z :: (zs ++ [x]) := by simp
      rw [hcons, hstep, ← hz, ih x (by simp)]
      have hfm : firstMaxP (a :: z :: zs) =
          if (firstMaxP (z :: zs)).1 > a.1 then firstMaxP (z :: zs) else a :=
        rfl
      rw [hfm]
      rcases lt_trichotomy x.1 (firstMaxP (z :: zs)).1 with h1 | h1 | h1 <;>
        rcases lt_trichotomy (firstMaxP (z :: zs)).1 a.1 with h2 | h2 | h2 <;>
        split_ifs <;> first | rfl | linarith

/-- The earliest maximal pair of the graph of `f` on `List.range n`: its
score is `f` of its index, the index is in range, every value is at most its
value, and everything strictly before it is strictly below it. -/
lemma firstMaxP_range_spec (f : ℕ → ℚ) : ∀ n : ℕ, n ≠ 0 →
    (firstMaxP ((List.range n).map fun i => (f i, i))).1 =
        f (firstMaxP ((List.range n).map fun i => (f i, i))).2 ∧
      (firstMaxP ((List.range n).map fun i => (f i, i))).2 < n ∧
      (∀ j < n, f j ≤ f (firstMaxP ((List.range n).map fun i => (f i, i))).2) ∧
      (∀ j < (firstMaxP ((List.range n).map fun i => (f i, i))).2,
        f j < f (firstMaxP ((List.range n).map fun i => (f i, i))).2) := by
  intro n
  induction n with
  | zero => intro h; exact absurd rfl h
  | succ m ih =>
    intro _
    rcases Nat.eq_zero_or_pos m with hm | hm
    · subst hm
      simp only [List.range_succ, List.range_zero, List.map_cons,
        List.map_nil, List.nil_append]
      refine ⟨rfl, Nat.zero_lt_one, ?_, ?_⟩
      · intro j hj
        interval_cases j
        exact le_refl _
      · intro j hj
        simp only [firstMaxP] at hj
        omega
    · have hrange : (List.range (m + 1)).map (fun i => (f i, i)) =
          ((List.range m).map fun i => (f i, i)) ++ [(f m, m)] := by
        rw [List.range_succ, List.map_append]
        rfl
      have hne : (List.range m).map (fun i => (f i, i)) ≠ [] := by
        simp [List.range_eq_nil]
        omega
      obtain ⟨hsc, hlt, hle, hstrict⟩ := ih (by omega)
      rw [hrange, firstMaxP_append_single _ _ hne]
      set p := firstMaxP ((List.range m).map fun i => (f i, i)) with hp
      by_cases hgt : (f m, m).1 > p.1
      · rw [if_pos hgt]
        have hgt2 : f p.2 < f m := by
          have hps : p.1 = f p.2 := hsc
          rw [hps] at hgt
          exact hgt
        refine ⟨rfl, Nat.lt_succ_self m, ?_, ?_⟩
        · intro j hj
          rcases Nat.lt_succ_iff_lt_or_eq.mp hj with hj2 | hj2
          · exact le_of_lt (lt_of_le_of_lt (hle j hj2) hgt2)
          · subst hj2; exact le_refl _
        · intro j hj
          exact lt_of_le_of_lt (hle j hj) hgt2
      · rw [if_neg hgt]
        have hgt2 : f m ≤ f p.2 := by
          have hps : p.1 = f p.2 := hsc
          have hle2 := not_lt.mp hgt
          rw [hps] at hle2
          exact hle2
        refine ⟨hsc, by omega, ?_, hstrict⟩
        intro j hj
        rcases Nat.lt_succ_iff_lt_or_eq.mp hj with hj2 | hj2
        · exact hle j hj2
        · subst hj2; exact hgt2

/-- C6 (corrected) counterexample: the claim quantifies over every
temperature.  At temperature −1 the scale `1/temp` is negative and reverses
the score order: on logits `[0, 1]` the unique highest logit sits at index 1,
yet the sampler with `top_k = 1` returns 0. -/
theorem gpt_sample_top_k_one_counterexample :
    gpt_sample_top_k_top_p (fun _ => 1) 2 [0, 1] 1 (9 / 10) (-1) 0 = 0 ∧
      gpt_sample_top_k_top_p (fun _ => 1) 2 [0, 1] 1 (9 / 10) (-1) 0 ≠ 1 := by
  have h := gpt_sample_top_k_one_eq (fun _ => 1) 2 [0, 1] (9 / 10) (-1) 0
    (by decide)
  have hpairs : samplePairs [0, 1] (-1) 2 = [(0, 0), (-1, 1)] := by
    unfold samplePairs
    norm_num [List.range_succ]
  rw [hpairs] at h
  have hfm : firstMaxP [((0 : ℚ), 0), (-1, 1)] = (0, 0) := by
    simp only [firstMaxP]
    norm_num
  rw [hfm] at h
  exact ⟨h, by rw [h]; decide⟩

/-- C6 (corrected, amended): with `top_k = 1` and a positive temperature,
`gpt_sample_top_k_top_p` returns the index of the single highest logit for
every logits vector, every `top_p`, every softmax realization `E` and every
random draw, ties among equal scores going to the lowest original index.
The positivity restriction is forced by the counterexample: a negative
temperature reverses the order of the scaled scores. -/
theorem gpt_sample_top_k_one_returns_argmax (E : ℚ → ℚ) (logits : List ℚ)
    (tp temp : ℚ) (d : ℕ) (hne : logits ≠ []) (ht : 0 < temp) :
    ∀ m, m = gpt_sample_top_k_top_p E logits.length logits 1 tp temp d →
      m < logits.length ∧
        (∀ j < logits.length, logits.getD j 0 ≤ logits.getD m 0) ∧
        (∀ j < m, logits.getD j 0 < logits.getD m 0) := by
  intro m hm
  have hn : logits.length ≠ 0 := by
    simpa [List.length_eq_zero] using hne
  rw [gpt_sample_top_k_one_eq E logits.length logits tp temp d hn] at hm
  have hspec := firstMaxP_range_spec
    (fun i => logits.getD i 0 * (1 / temp)) logits.length hn
  have hpair : samplePairs logits temp logits.length =
      (List.range logits.length).map
        fun i => (logits.getD i 0 * (1 / temp), i) := rfl
  rw [hpair] at hm
  obtain ⟨_, hlt, hle, hstrict⟩ := hspec
  subst hm
  have hs : 0 < 1 / temp := by positivity
  refine ⟨hlt, ?_, ?_⟩
  · intro j hj
    have := hle j hj
    exact le_of_mul_le_mul_right this hs
  · intro j hj
    have := hstrict j hj
    exact lt_of_mul_lt_mul_right (by linarith) (le_of_lt hs)

/-- Witness for C6: on logits `[1, 3, 3]` with temperature 1, `top_p` one
half and draw 7 the sampler returns index 1 — the earlier of the two tied
maxima — and that index is in range, carries a maximal logit, and everything
before it is strictly smaller. -/
theorem gpt_sample_top_k_one_returns_argmax_witness :
    gpt_sample_top_k_top_p (fun _ => 1) 3 [1, 3, 3] 1 (1 / 2) 1 7 = 1 ∧
      (1 < ([(1 : ℚ), 3, 3]).length ∧
        (∀ j < ([(1 : ℚ), 3, 3]).length,
          ([(1 : ℚ), 3, 3]).getD j 0 ≤ ([(1 : ℚ), 3, 3]).getD 1 0) ∧
        ∀ j < 1, ([(1 : ℚ), 3, 3]).getD j 0 < ([(1 : ℚ), 3, 3]).getD 1 0) := by
  have heq : gpt_sample_top_k_top_p (fun _ => 1) 3 [1, 3, 3] 1 (1 / 2) 1 7
      = 1 := by
    have h := gpt_sample_top_k_one_eq (fun _ => 1) 3 [1, 3, 3] (1 / 2) 1 7
      (by decide)
    have hpairs : samplePairs [1, 3, 3] 1 3 = [(1, 0), (3, 1), (3, 2)] := by
      unfold samplePairs
      norm_num [List.range_succ]
    rw [hpairs] at h
    have hfm : firstMaxP [((1 : ℚ), 0), (3, 1), (3, 2)] = (3, 1) := by
      simp only [firstMaxP]
      norm_num
    rw [hfm] at h
    exact h
  refine ⟨heq, ?_⟩
  have h3 : ([(1 : ℚ), 3, 3]).length = 3 := rfl
  rw [h3]
  exact gpt_sample_top_k_one_returns_argmax (fun _ => 1) [1, 3, 3] (1 / 2) 1
    7 (by decide) (by norm_num) 1 heq.symm

/-- Case analysis for `afterEval`: prefill halt on an end-of-text batch
tail, prefill continuation with the filled batch, decode halt on a sampled
end-of-text id, decode halt on a callback refusal, decode continuation. -/
lemma afterEval_elim (C : GenCtx) (st : GenSt) (acc : GenAcc) (lg : List ℚ)
    (motive : StepRes → Prop)
    (hpre_eot : st.i < C.embd_inp.length →
      (fillBatch C.embd_inp st.i C.params.n_batch).getLast? = some 50256 →
      motive (.halt (mkRun acc true (st.n_past + st.embd.length))))
    (hpre : st.i < C.embd_inp.length →
      (fillBatch C.embd_inp st.i C.params.n_batch).getLast? ≠ some 50256 →
      motive (.next
        ⟨st.i + (fillBatch C.embd_inp st.i C.params.n_batch).length,
          st.n_past + st.embd.length,
          fillBatch C.embd_inp st.i C.params.n_batch, lg, st.k⟩ acc))
    (hdec_eot : ¬st.i < C.embd_inp.length →
      ∀ id, id = gpt_sample_top_k_top_p C.E C.vocabSize
          (lg.drop (lg.length - C.n_vocab)) C.params.top_k C.params.top_p
          C.params.temp (C.draws st.k) →
        id = 50256 →
        motive (.halt (mkRun
          ⟨acc.evalCalls, acc.samples ++ [(st.n_past + st.embd.length, id)],
            acc.callbackCalls⟩ true (st.n_past + st.embd.length))))
    (hdec_cb : ¬st.i < C.embd_inp.length →
      ∀ id, id = gpt_sample_top_k_top_p C.E C.vocabSize
          (lg.drop (lg.length - C.n_vocab)) C.params.top_k C.params.top_p
          C.params.temp (C.draws st.k) →
        id ≠ 50256 → C.cb ((C.vocab.idToToken id).getD []) = false →
        motive (.halt (mkRun
          ⟨acc.evalCalls, acc.samples ++ [(st.n_past + st.embd.length, id)],
            acc.callbackCalls ++ [(C.vocab.idToToken id).getD []]⟩ true
          (st.n_past + st.embd.length))))
    (hdec_next : ¬st.i < C.embd_inp.length →
      ∀ id, id = gpt_sample_top_k_top_p C.E C.vocabSize
          (lg.drop (lg.length - C.n_vocab)) C.params.top_k C.params.top_p
          C.params.temp (C.draws st.k) →
        id ≠ 50256 → C.cb ((C.vocab.idToToken id).getD []) ≠ false →
        motive (.next ⟨st.i + 1, st.n_past + st.embd.length, [id], lg,
          st.k + 1⟩
          ⟨acc.evalCalls, acc.samples ++ [(st.n_past + st.embd.length, id)],
            acc.callbackCalls ++ [(C.vocab.idToToken id).getD []]⟩)) :
    motive (afterEval C st acc lg) := by
  unfold afterEval
  by_cases hpf : st.i < C.embd_inp.length
  · rw [if_pos hpf]
    by_cases heot : (fillBatch C.embd_inp st.i C.params.n_batch).getLast? =
        some 50256
    · rw [if_pos heot]
      exact hpre_eot hpf heot
    · rw [if_neg heot]
      exact hpre hpf heot
  · rw [if_neg hpf]
    set id := gpt_sample_top_k_top_p C.E C.vocabSize
      (lg.drop (lg.length - C.n_vocab)) C.params.top_k C.params.top_p
      C.params.temp (C.draws st.k) with hid
    by_cases heot : id = 50256
    · rw [if_pos heot]
      exact hdec_eot hpf id hid heot
    · rw [if_neg heot]
      by_cases hcb : C.cb ((C.vocab.idToToken id).getD []) = false
      · rw [if_pos hcb]
        exact hdec_cb hpf id hid heot hcb
      · rw [if_neg hcb, if_neg heot]
        exact hdec_next hpf id hid heot hcb

/-- Case analysis for `genStep`: evaluator failure, or hand-off to
`afterEval` with either the untouched accumulator (empty pending batch: no
evaluator call) or the accumulator extended by the recorded call. -/
lemma genStep_elim (C : GenCtx) (st : GenSt) (acc : GenAcc)
    (motive : StepRes → Prop)
    (hfail : st.embd ≠ [] → C.evalFn st.n_past st.embd = none →
      motive (.halt (mkRun ⟨acc.evalCalls ++ [(st.n_past, st.embd)],
        acc.samples, acc.callbackCalls⟩ false st.n_past)))
    (hok : ∀ lg acc1,
      (st.embd = [] ∧ acc1 = acc ∧ lg = st.logits) ∨
        (st.embd ≠ [] ∧ C.evalFn st.n_past st.embd = some lg ∧
          acc1 = ⟨acc.evalCalls ++ [(st.n_past, st.embd)], acc.samples,
            acc.callbackCalls⟩) →
      motive (afterEval C st acc1 lg)) :
    motive (genStep C st acc) := by
  unfold genStep
  by_cases hE : st.embd = []
  · rw [if_pos hE]
    exact hok st.logits acc (Or.inl ⟨hE, rfl, rfl⟩)
  · rw [if_neg hE]
    cases hev : C.evalFn st.n_past st.embd with
    | none => exact hfail hE hev
    | some lg => exact hok lg _ (Or.inr ⟨hE, hev, rfl⟩)

lemma fillBatchGo_length_le (B : ℕ) : ∀ (rem acc : List ℕ),
    acc.length ≤ B → (fillBatchGo B acc rem).length ≤ B + 1 := by
  intro rem
  induction rem with
  | nil =>
    intro acc h
    simp only [fillBatchGo]
    omega
  | cons t rest ih =>
    intro acc h
    simp only [fillBatchGo]
    split
    · simp
      omega
    · rename_i hlt
      exact ih (acc ++ [t]) (by simp at hlt ⊢; omega)

lemma fillBatchGo_length_le_add (B : ℕ) : ∀ (rem acc : List ℕ),
    (fillBatchGo B acc rem).length ≤ acc.length + rem.length := by
  intro rem
  induction rem with
  | nil => intro acc; simp [fillBatchGo]
  | cons t rest ih =>
    intro acc
    simp only [fillBatchGo]
    split
    · simp
    · have := ih (acc ++ [t])
      simp at this ⊢
      omega

lemma fillBatchGo_ne_nil (B : ℕ) : ∀ (rem acc : List ℕ),
    acc ≠ [] ∨ rem ≠ [] → fillBatchGo B acc rem ≠ [] := by
  intro rem
  induction rem with
  | nil =>
    intro acc h
    rcases h with h | h
    · simpa [fillBatchGo] using h
    · exact absurd rfl h
  | cons t rest ih =>
    intro acc _
    simp only [fillBatchGo]
    split
    · simp
    · exact ih (acc ++ [t]) (Or.inl (by simp))

lemma fillBatch_length_le (inp : List ℕ) (i B : ℕ) :
    (fillBatch inp i B).length ≤ B + 1 :=
  fillBatchGo_length_le B _ [] (by simp)

lemma fillBatch_length_le_rem (inp : List ℕ) (i B : ℕ) :
    (fillBatch inp i B).length ≤ inp.length - i := by
  have := fillBatchGo_length_le_add B (inp.drop i) []
  simpa [fillBatch] using this

lemma fillBatch_ne_nil (inp : List ℕ) (i B : ℕ) (h : i < inp.length) :
    fillBatch inp i B ≠ [] := by
  apply fillBatchGo_ne_nil
  right
  intro hd
  rw [List.drop_eq_nil_iff] at hd
  omega

/-- The sample trace only grows. -/
lemma genLoop_samples_mono (C : GenCtx) : ∀ (fuel : ℕ) (st : GenSt)
    (acc : GenAcc), ∃ l, (genLoop C fuel st acc).samples = acc.samples ++ l := by
  intro fuel
  induction fuel with
  | zero => intro st acc; exact ⟨[], by simp [genLoop, mkRun]⟩
  | succ fuel ih =>
    intro st acc
    unfold genLoop
    split
    · exact ⟨[], by simp [mkRun]⟩
    · refine genStep_elim C st acc (fun res =>
        ∃ l, (match res with
          | .halt r => r
          | .next st2 acc2 => genLoop C fuel st2 acc2).samples =
            acc.samples ++ l) ?_ ?_
      · intro _ _
        exact ⟨[], by simp [mkRun]⟩
      · intro lg acc1 hacc1
        have hsame : acc1.samples = acc.samples := by
          rcases hacc1 with ⟨_, rfl, _⟩ | ⟨_, _, rfl⟩ <;> rfl
        refine afterEval_elim C st acc1 lg (fun res =>
          ∃ l, (match res with
            | .halt r => r
            | .next st2 acc2 => genLoop C fuel st2 acc2).samples =
              acc.samples ++ l) ?_ ?_ ?_ ?_ ?_
        · intro _ _
          exact ⟨[], by simp [mkRun, hsame]⟩
        · intro _ _
          obtain ⟨l, hl⟩ := ih _ acc1
          exact ⟨l, by simpa [hsame] using hl⟩
        · intro _ id _ _
          exact ⟨[(st.n_past + st.embd.length, id)], by simp [mkRun, hsame]⟩
        · intro _ id _ _ _
          exact ⟨[(st.n_past + st.embd.length, id)], by simp [mkRun, hsame]⟩
        · intro _ id _ _ _
          obtain ⟨l, hl⟩ := ih _
            ⟨acc1.evalCalls, acc1.samples ++ [(st.n_past + st.embd.length, id)],
              acc1.callbackCalls ++ [(C.vocab.idToToken id).getD []]⟩
          exact ⟨(st.n_past + st.embd.length, id) :: l,
            by simpa [hsame] using hl⟩

/-- Refined case analysis for `genStep` with the accumulator resolved in
each branch: evaluator failure, empty pending batch (no call), recorded
successful call. -/
lemma genStep_elim2 (C : GenCtx) (st : GenSt) (acc : GenAcc)
    (motive : StepRes → Prop)
    (hfail : st.embd ≠ [] → C.evalFn st.n_past st.embd = none →
      motive (.halt (mkRun ⟨acc.evalCalls ++ [(st.n_past, st.embd)],
        acc.samples, acc.callbackCalls⟩ false st.n_past)))
    (hempty : st.embd = [] → motive (afterEval C st acc st.logits))
    (hsome : ∀ lg, st.embd ≠ [] → C.evalFn st.n_past st.embd = some lg →
      motive (afterEval C st ⟨acc.evalCalls ++ [(st.n_past, st.embd)],
        acc.samples, acc.callbackCalls⟩ lg)) :
    motive (genStep C st acc) := by
  refine genStep_elim C st acc motive hfail ?_
  intro lg acc1 h
  rcases h with ⟨hE, h1, h2⟩ | ⟨hE, hev, h1⟩
  · rw [h1, h2]
    exact hempty hE
  · rw [h1]
    exact hsome lg hE hev

/-- Evaluator-call trace of the loop: the calls recorded beyond `acc` all
carry at most `n_batch + 1` token ids (provided the incoming pending batch
does), and the first of them, if any, is issued at cache position
`st.n_past`. -/
lemma genLoop_evalCalls_spec (C : GenCtx) : ∀ (fuel : ℕ) (st : GenSt)
    (acc : GenAcc), st.embd.length ≤ C.params.n_batch + 1 →
    ∃ l, (genLoop C fuel st acc).evalCalls = acc.evalCalls ++ l ∧
      (∀ c ∈ l, c.2.length ≤ C.params.n_batch + 1) ∧
      (l = [] ∨ ∃ lt e np, l = (np, e) :: lt ∧ np = st.n_past) := by
  intro fuel
  induction fuel with
  | zero =>
    intro st acc _
    exact ⟨[], by simp [genLoop, mkRun], by simp, Or.inl rfl⟩
  | succ fuel ih =>
    intro st acc hlen
    unfold genLoop
    split
    · exact ⟨[], by simp [mkRun], by simp, Or.inl rfl⟩
    · refine genStep_elim2 C st acc (fun res =>
        ∃ l, (match res with
          | .halt r => r
          | .next st2 acc2 => genLoop C fuel st2 acc2).evalCalls =
            acc.evalCalls ++ l ∧
          (∀ c ∈ l, c.2.length ≤ C.params.n_batch + 1) ∧
          (l = [] ∨ ∃ lt e np, l = (np, e) :: lt ∧ np = st.n_past)) ?_ ?_ ?_
      · intro _ _
        refine ⟨[(st.n_past, st.embd)], by simp [mkRun], ?_,
          Or.inr ⟨[], st.embd, st.n_past, rfl, rfl⟩⟩
        intro c hc
        rw [List.mem_singleton] at hc
        subst hc
        exact hlen
      · intro hE
        have hnp : st.n_past + st.embd.length = st.n_past := by
          rw [hE]
          rfl
        refine afterEval_elim C st acc st.logits (fun res =>
          ∃ l, (match res with
            | .halt r => r
            | .next st2 acc2 => genLoop C fuel st2 acc2).evalCalls =
              acc.evalCalls ++ l ∧
            (∀ c ∈ l, c.2.length ≤ C.params.n_batch + 1) ∧
            (l = [] ∨ ∃ lt e np, l = (np, e) :: lt ∧ np = st.n_past))
          ?_ ?_ ?_ ?_ ?_
        · intro _ _
          exact ⟨[], by simp [mkRun], by simp, Or.inl rfl⟩
        · intro _ _
          obtain ⟨l, hl, hb, hh⟩ := ih
            ⟨st.i + (fillBatch C.embd_inp st.i C.params.n_batch).length,
              st.n_past + st.embd.length,
              fillBatch C.embd_inp st.i C.params.n_batch, st.logits, st.k⟩
            acc (fillBatch_length_le _ _ _)
          refine ⟨l, hl, hb, ?_⟩
          rcases hh with hh | ⟨lt, e, np, hh, hnp2⟩
          · exact Or.inl hh
          · exact Or.inr ⟨lt, e, np, hh, hnp2.trans hnp⟩
        · intro _ id _ _
          exact ⟨[], by simp [mkRun], by simp, Or.inl rfl⟩
        · intro _ id _ _ _
          exact ⟨[], by simp [mkRun], by simp, Or.inl rfl⟩
        · intro _ id _ _ _
          obtain ⟨l, hl, hb, hh⟩ := ih
            ⟨st.i + 1, st.n_past + st.embd.length, [id], st.logits, st.k + 1⟩
            ⟨acc.evalCalls,
              acc.samples ++ [(st.n_past + st.embd.length, id)],
              acc.callbackCalls ++ [(C.vocab.idToToken id).getD []]⟩
            (by simp)
          refine ⟨l, by simpa using hl, hb, ?_⟩
          rcases hh with hh | ⟨lt, e, np, hh, hnp2⟩
          · exact Or.inl hh
          · exact Or.inr ⟨lt, e, np, hh, hnp2.trans hnp⟩
      · intro lg hE hev
        refine afterEval_elim C st
          ⟨acc.evalCalls ++ [(st.n_past, st.embd)], acc.samples,
            acc.callbackCalls⟩ lg (fun res =>
          ∃ l, (match res with
            | .halt r => r
            | .next st2 acc2 => genLoop C fuel st2 acc2).evalCalls =
              acc.evalCalls ++ l ∧
            (∀ c ∈ l, c.2.length ≤ C.params.n_batch + 1) ∧
            (l = [] ∨ ∃ lt e np, l = (np, e) :: lt ∧ np = st.n_past))
          ?_ ?_ ?_ ?_ ?_
        · intro _ _
          refine ⟨[(st.n_past, st.embd)], by simp [mkRun], ?_,
            Or.inr ⟨[], st.embd, st.n_past, rfl, rfl⟩⟩
          intro c hc
          rw [List.mem_singleton] at hc
          subst hc
          exact hlen
        · intro _ _
          obtain ⟨l, hl, hb, _⟩ := ih
            ⟨st.i + (fillBatch C.embd_inp st.i C.params.n_batch).length,
              st.n_past + st.embd.length,
              fillBatch C.embd_inp st.i C.params.n_batch, lg, st.k⟩
            ⟨acc.evalCalls ++ [(st.n_past, st.embd)], acc.samples,
              acc.callbackCalls⟩
            (fillBatch_length_le _ _ _)
          refine ⟨(st.n_past, st.embd) :: l, by simpa using hl, ?_,
            Or.inr ⟨l, st.embd, st.n_past, rfl, rfl⟩⟩
          intro c hc
          rcases List.mem_cons.mp hc with hc | hc
          · subst hc
            exact hlen
          · exact hb c hc
        · intro _ id _ _
          refine ⟨[(st.n_past, st.embd)], by simp [mkRun], ?_,
            Or.inr ⟨[], st.embd, st.n_past, rfl, rfl⟩⟩
          intro c hc
          rw [List.mem_singleton] at hc
          subst hc
          exact hlen
        · intro _ id _ _ _
          refine ⟨[(st.n_past, st.embd)], by simp [mkRun], ?_,
            Or.inr ⟨[], st.embd, st.n_past, rfl, rfl⟩⟩
          intro c hc
          rw [List.mem_singleton] at hc
          subst hc
          exact hlen
        · intro _ id _ _ _
          obtain ⟨l, hl, hb, _⟩ := ih
            ⟨st.i + 1, st.n_past + st.embd.length, [id], lg, st.k + 1⟩
            ⟨acc.evalCalls ++ [(st.n_past, st.embd)],
              acc.samples ++ [(st.n_past + st.embd.length, id)],
              acc.callbackCalls ++ [(C.vocab.idToToken id).getD []]⟩
            (by simp)
          refine ⟨(st.n_past, st.embd) :: l, by simpa using hl, ?_,
            Or.inr ⟨l, st.embd, st.n_past, rfl, rfl⟩⟩
          intro c hc
          rcases List.mem_cons.mp hc with hc | hc
          · subst hc
            exact hlen
          · exact hb c hc

/-- Sampling happens only at iterations with `embd_inp.length ≤ i < bound`,
each of which advances `i` by one, so the loop adds at most
`bound - max i embd_inp.length` samples. -/
lemma genLoop_samples_count (C : GenCtx) : ∀ (fuel : ℕ) (st : GenSt)
    (acc : GenAcc),
    (genLoop C fuel st acc).samples.length ≤
      acc.samples.length + (C.bound - max st.i C.embd_inp.length) := by
  intro fuel
  induction fuel with
  | zero =>
    intro st acc
    simp [genLoop, mkRun]
  | succ fuel ih =>
    intro st acc
    unfold genLoop
    split
    · simp [mkRun]
    · rename_i hni
      refine genStep_elim2 C st acc (fun res =>
        (match res with
          | .halt r => r
          | .next st2 acc2 => genLoop C fuel st2 acc2).samples.length ≤
          acc.samples.length + (C.bound - max st.i C.embd_inp.length)) ?_ ?_ ?_
      · intro _ _
        simp [mkRun]
      · intro _
        refine afterEval_elim C st acc st.logits (fun res =>
          (match res with
            | .halt r => r
            | .next st2 acc2 => genLoop C fuel st2 acc2).samples.length ≤
            acc.samples.length + (C.bound - max st.i C.embd_inp.length))
          ?_ ?_ ?_ ?_ ?_
        · intro _ _
          simp [mkRun]
        · intro hpf _
          have hIH : (genLoop C fuel
              ⟨st.i + (fillBatch C.embd_inp st.i C.params.n_batch).length,
                st.n_past + st.embd.length,
                fillBatch C.embd_inp st.i C.params.n_batch, st.logits, st.k⟩
              acc).samples.length ≤
              acc.samples.length + (C.bound -
                max (st.i + (fillBatch C.embd_inp st.i
                  C.params.n_batch).length) C.embd_inp.length) := ih _ acc
          simp only at hIH ⊢
          omega
        · intro hpf id _ _
          simp only [mkRun]
          simp only [not_lt] at hpf
          simp
          omega
        · intro hpf id _ _ _
          simp only [mkRun]
          simp only [not_lt] at hpf
          simp
          omega
        · intro hpf id _ _ _
          have hIH : (genLoop C fuel
              ⟨st.i + 1, st.n_past + st.embd.length, [id], st.logits,
                st.k + 1⟩
              ⟨acc.evalCalls,
                acc.samples ++ [(st.n_past + st.embd.length, id)],
                acc.callbackCalls ++ [(C.vocab.idToToken id).getD []]⟩
              ).samples.length ≤
              (acc.samples ++
                [(st.n_past + st.embd.length, id)]).length +
                (C.bound - max (st.i + 1) C.embd_inp.length) := ih _ _
          simp only [not_lt] at hpf
          simp only [List.length_append, List.length_cons,
            List.length_nil] at hIH
          simp only at hIH ⊢
          omega
      · intro lg _ _
        refine afterEval_elim C st
          ⟨acc.evalCalls ++ [(st.n_past, st.embd)], acc.samples,
            acc.callbackCalls⟩ lg (fun res =>
          (match res with
            | .halt r => r
            | .next st2 acc2 => genLoop C fuel st2 acc2).samples.length ≤
            acc.samples.length + (C.bound - max st.i C.embd_inp.length))
          ?_ ?_ ?_ ?_ ?_
        · intro _ _
          simp [mkRun]
        · intro hpf _
          have hIH : (genLoop C fuel
              ⟨st.i + (fillBatch C.embd_inp st.i C.params.n_batch).length,
                st.n_past + st.embd.length,
                fillBatch C.embd_inp st.i C.params.n_batch, lg, st.k⟩
              ⟨acc.evalCalls ++ [(st.n_past, st.embd)], acc.samples,
                acc.callbackCalls⟩).samples.length ≤
              acc.samples.length + (C.bound -
                max (st.i + (fillBatch C.embd_inp st.i
                  C.params.n_batch).length) C.embd_inp.length) := ih _ _
          simp only at hIH ⊢
          omega
        · intro hpf id _ _
          simp only [mkRun]
          simp only [not_lt] at hpf
          simp
          omega
        · intro hpf id _ _ _
          simp only [mkRun]
          simp only [not_lt] at hpf
          simp
          omega
        · intro hpf id _ _ _
          have hIH : (genLoop C fuel
              ⟨st.i + 1, st.n_past + st.embd.length, [id], lg, st.k + 1⟩
              ⟨acc.evalCalls ++ [(st.n_past, st.embd)],
                acc.samples ++ [(st.n_past + st.embd.length, id)],
                acc.callbackCalls ++ [(C.vocab.idToToken id).getD []]⟩
              ).samples.length ≤
              (acc.samples ++
                [(st.n_past + st.embd.length, id)]).length +
                (C.bound - max (st.i + 1) C.embd_inp.length) := ih _ _
          simp only [not_lt] at hpf
          simp only [List.length_append, List.length_cons,
            List.length_nil] at hIH
          simp only at hIH ⊢
          omega

/-- With the bookkeeping invariant `n_past + |embd| = i`, the final value of
`n_past` never exceeds the loop bound (nor the starting `n_past`). -/
lemma genLoop_finalNPast (C : GenCtx) : ∀ (fuel : ℕ) (st : GenSt)
    (acc : GenAcc), st.n_past + st.embd.length = st.i →
    (genLoop C fuel st acc).finalNPast ≤ max C.bound st.n_past := by
  intro fuel
  induction fuel with
  | zero =>
    intro st acc _
    simp [genLoop, mkRun]
  | succ fuel ih =>
    intro st acc hinv
    unfold genLoop
    split
    · simp [mkRun]
    · rename_i hni
      refine genStep_elim2 C st acc (fun res =>
        (match res with
          | .halt r => r
          | .next st2 acc2 => genLoop C fuel st2 acc2).finalNPast ≤
          max C.bound st.n_past) ?_ ?_ ?_
      · intro _ _
        simp [mkRun]
      · intro _
        refine afterEval_elim C st acc st.logits (fun res =>
          (match res with
            | .halt r => r
            | .next st2 acc2 => genLoop C fuel st2 acc2).finalNPast ≤
            max C.bound st.n_past) ?_ ?_ ?_ ?_ ?_
        · intro _ _
          simp only [mkRun]
          omega
        · intro _ _
          have hIH : (genLoop C fuel
              ⟨st.i + (fillBatch C.embd_inp st.i C.params.n_batch).length,
                st.n_past + st.embd.length,
                fillBatch C.embd_inp st.i C.params.n_batch, st.logits, st.k⟩
              acc).finalNPast ≤
              max C.bound (st.n_past + st.embd.length) :=
            ih _ acc (by simp; omega)
          simp only at hIH ⊢
          omega
        · intro _ id _ _
          simp only [mkRun]
          omega
        · intro _ id _ _ _
          simp only [mkRun]
          omega
        · intro _ id _ _ _
          have hIH : (genLoop C fuel
              ⟨st.i + 1, st.n_past + st.embd.length, [id], st.logits,
                st.k + 1⟩
              ⟨acc.evalCalls,
                acc.samples ++ [(st.n_past + st.embd.length, id)],
                acc.callbackCalls ++ [(C.vocab.idToToken id).getD []]⟩
              ).finalNPast ≤
              max C.bound (st.n_past + st.embd.length) :=
            ih _ _ (by simp; omega)
          simp only at hIH ⊢
          omega
      · intro lg _ _
        refine afterEval_elim C st
          ⟨acc.evalCalls ++ [(st.n_past, st.embd)], acc.samples,
            acc.callbackCalls⟩ lg (fun res =>
          (match res with
            | .halt r => r
            | .next st2 acc2 => genLoop C fuel st2 acc2).finalNPast ≤
            max C.bound st.n_past) ?_ ?_ ?_ ?_ ?_
        · intro _ _
          simp only [mkRun]
          omega
        · intro _ _
          have hIH : (genLoop C fuel
              ⟨st.i + (fillBatch C.embd_inp st.i C.params.n_batch).length,
                st.n_past + st.embd.length,
                fillBatch C.embd_inp st.i C.params.n_batch, lg, st.k⟩
              ⟨acc.evalCalls ++ [(st.n_past, st.embd)], acc.samples,
                acc.callbackCalls⟩).finalNPast ≤
              max C.bound (st.n_past + st.embd.length) :=
            ih _ _ (by simp; omega)
          simp only at hIH ⊢
          omega
        · intro _ id _ _
          simp only [mkRun]
          omega
        · intro _ id _ _ _
          simp only [mkRun]
          omega
        · intro _ id _ _ _
          have hIH : (genLoop C fuel
              ⟨st.i + 1, st.n_past + st.embd.length, [id], lg, st.k + 1⟩
              ⟨acc.evalCalls ++ [(st.n_past, st.embd)],
                acc.samples ++ [(st.n_past + st.embd.length, id)],
                acc.callbackCalls ++ [(C.vocab.idToToken id).getD []]⟩
              ).finalNPast ≤
              max C.bound (st.n_past + st.embd.length) :=
            ih _ _ (by simp; omega)
          simp only at hIH ⊢
          omega

/-- With the invariant `n_past + |embd| = i` and `i` still inside the
prompt, the first sampling event the loop ever records carries
`n_past = embd_inp.length`: prefill batches land exactly on the prompt
boundary, and the evaluation preceding the first sample pushes `n_past` to
it. -/
lemma genLoop_first_sample (C : GenCtx) : ∀ (fuel : ℕ) (st : GenSt)
    (acc : GenAcc), st.n_past + st.embd.length = st.i →
    st.i ≤ C.embd_inp.length →
    ∃ l, (genLoop C fuel st acc).samples = acc.samples ++ l ∧
      ∀ s lr, l = s :: lr → s.1 = C.embd_inp.length := by
  intro fuel
  induction fuel with
  | zero =>
    intro st acc _ _
    exact ⟨[], by simp [genLoop, mkRun], by intro s lr h; cases h⟩
  | succ fuel ih =>
    intro st acc hinv hile
    unfold genLoop
    split
    · exact ⟨[], by simp [mkRun], by intro s lr h; cases h⟩
    · rename_i hni
      refine genStep_elim2 C st acc (fun res =>
        ∃ l, (match res with
          | .halt r => r
          | .next st2 acc2 => genLoop C fuel st2 acc2).samples =
            acc.samples ++ l ∧
          ∀ s lr, l = s :: lr → s.1 = C.embd_inp.length) ?_ ?_ ?_
      · intro _ _
        exact ⟨[], by simp [mkRun], by intro s lr h; cases h⟩
      · intro _
        refine afterEval_elim C st acc st.logits (fun res =>
          ∃ l, (match res with
            | .halt r => r
            | .next st2 acc2 => genLoop C fuel st2 acc2).samples =
              acc.samples ++ l ∧
            ∀ s lr, l = s :: lr → s.1 = C.embd_inp.length) ?_ ?_ ?_ ?_ ?_
        · intro _ _
          exact ⟨[], by simp [mkRun], by intro s lr h; cases h⟩
        · intro hpf _
          have hrem := fillBatch_length_le_rem C.embd_inp st.i
            C.params.n_batch
          exact ih
            ⟨st.i + (fillBatch C.embd_inp st.i C.params.n_batch).length,
              st.n_past + st.embd.length,
              fillBatch C.embd_inp st.i C.params.n_batch, st.logits, st.k⟩
            acc (by simp; omega) (by simp; omega)
        · intro hpf id _ _
          refine ⟨[(st.n_past + st.embd.length, id)], by simp [mkRun], ?_⟩
          intro s lr h
          injection h with h1 _
          subst h1
          simp only [not_lt] at hpf
          simp
          omega
        · intro hpf id _ _ _
          refine ⟨[(st.n_past + st.embd.length, id)], by simp [mkRun], ?_⟩
          intro s lr h
          injection h with h1 _
          subst h1
          simp only [not_lt] at hpf
          simp
          omega
        · intro hpf id _ _ _
          obtain ⟨l2, hl2⟩ := genLoop_samples_mono C fuel
            ⟨st.i + 1, st.n_past + st.embd.length, [id], st.logits, st.k + 1⟩
            ⟨acc.evalCalls,
              acc.samples ++ [(st.n_past + st.embd.length, id)],
              acc.callbackCalls ++ [(C.vocab.idToToken id).getD []]⟩
          refine ⟨(st.n_past + st.embd.length, id) :: l2, ?_, ?_⟩
          · simpa using hl2
          · intro s lr h
            injection h with h1 _
            subst h1
            simp only [not_lt] at hpf
            simp
            omega
      · intro lg _ _
        refine afterEval_elim C st
          ⟨acc.evalCalls ++ [(st.n_past, st.embd)], acc.samples,
            acc.callbackCalls⟩ lg (fun res =>
          ∃ l, (match res with
            | .halt r => r
            | .next st2 acc2 => genLoop C fuel st2 acc2).samples =
              acc.samples ++ l ∧
            ∀ s lr, l = s :: lr → s.1 = C.embd_inp.length) ?_ ?_ ?_ ?_ ?_
        · intro _ _
          exact ⟨[], by simp [mkRun], by intro s lr h; cases h⟩
        · intro hpf _
          have hrem := fillBatch_length_le_rem C.embd_inp st.i
            C.params.n_batch
          exact ih
            ⟨st.i + (fillBatch C.embd_inp st.i C.params.n_batch).length,
              st.n_past + st.embd.length,
              fillBatch C.embd_inp st.i C.params.n_batch, lg, st.k⟩
            ⟨acc.evalCalls ++ [(st.n_past, st.embd)], acc.samples,
              acc.callbackCalls⟩ (by simp; omega) (by simp; omega)
        · intro hpf id _ _
          refine ⟨[(st.n_past + st.embd.length, id)], by simp [mkRun], ?_⟩
          intro s lr h
          injection h with h1 _
          subst h1
          simp only [not_lt] at hpf
          simp
          omega
        · intro hpf id _ _ _
          refine ⟨[(st.n_past + st.embd.length, id)], by simp [mkRun], ?_⟩
          intro s lr h
          injection h with h1 _
          subst h1
          simp only [not_lt] at hpf
          simp
          omega
        · intro hpf id _ _ _
          obtain ⟨l2, hl2⟩ := genLoop_samples_mono C fuel
            ⟨st.i + 1, st.n_past + st.embd.length, [id], lg, st.k + 1⟩
            ⟨acc.evalCalls ++ [(st.n_past, st.embd)],
              acc.samples ++ [(st.n_past + st.embd.length, id)],
              acc.callbackCalls ++ [(C.vocab.idToToken id).getD []]⟩
          refine ⟨(st.n_past + st.embd.length, id) :: l2, ?_, ?_⟩
          · simpa using hl2
          · intro s lr h
            injection h with h1 _
            subst h1
            simp only [not_lt] at hpf
            simp
            omega

/-- Unfolding of the driver entry point. -/
lemma gptj_generate_run_eq (vocab : GptVocab) (n_vocab vocabSize n_ctx : ℕ)
    (params : GenParams) (evalFn : ℕ → List ℕ → Option (List ℚ))
    (cb : List Char → Bool) (draws : ℕ → ℕ) (E : ℚ → ℚ)
    (prompt : List Char) :
    gptj_generate_run vocab n_vocab vocabSize n_ctx params evalFn cb draws E
        prompt =
      genLoop
        ⟨vocab, n_vocab, vocabSize, gpt_tokenize vocab prompt,
          ((((gpt_tokenize vocab prompt).length : ℤ)) +
            min ((params.n_predict : ℤ))
              ((n_ctx : ℤ) - ((gpt_tokenize vocab prompt).length : ℤ))).toNat,
          params, evalFn, cb, draws, E⟩
        ((((gpt_tokenize vocab prompt).length : ℤ)) +
          min ((params.n_predict : ℤ))
            ((n_ctx : ℤ) - ((gpt_tokenize vocab prompt).length : ℤ))).toNat
        ⟨0, 0, [], (evalFn 0 [0, 1, 2, 3]).getD [], 0⟩
        ⟨[(0, [0, 1, 2, 3])], [], []⟩ := rfl

/-- The clamped loop bound `P + min(n_predict, n_ctx - P)` of gptj.cpp
lines 891/900, as a natural number. -/
lemma generate_bound_eq (P np n_ctx : ℕ) :
    (((P : ℤ)) + min ((np : ℤ)) ((n_ctx : ℤ) - (P : ℤ))).toNat =
      min (P + np) n_ctx := by
  omega

/-- C2 (corrected, amended): during prefill (indeed for every evaluator
call after the initial warm-up call), the input batch holds at most
`n_batch + 1` token ids — not `n_batch`: the batch-fill loop at gptj.cpp
lines 937-944 tests `embd.size() > n_batch` only after pushing, so a batch
may exceed the configured size by exactly one. -/
theorem gptj_generate_prefill_batch_bound (vocab : GptVocab)
    (n_vocab vocabSize n_ctx : ℕ) (params : GenParams)
    (evalFn : ℕ → List ℕ → Option (List ℚ)) (cb : List Char → Bool)
    (draws : ℕ → ℕ) (E : ℚ → ℚ) (prompt : List Char) :
    ∀ c ∈ (gptj_generate_run vocab n_vocab vocabSize n_ctx params evalFn cb
        draws E prompt).evalCalls.drop 1,
      c.2.length ≤ params.n_batch + 1 := by
  intro c hc
  rw [gptj_generate_run_eq] at hc
  obtain ⟨l, hl, hb, _⟩ := genLoop_evalCalls_spec _ _
    ⟨0, 0, [], (evalFn 0 [0, 1, 2, 3]).getD [], 0⟩
    ⟨[(0, [0, 1, 2, 3])], [], []⟩ (by simp)
  rw [hl] at hc
  simp only [List.singleton_append, List.drop_succ_cons, List.drop_zero]
    at hc
  exact hb c hc

/-- C3 (confirmed): the number of decode (sampling) steps `gptj_generate`
performs never exceeds `n_ctx - P` where `P` is the prompt's tokenized
length (truncated subtraction: when the prompt already fills the context no
decode step happens), the final KV-cache position `n_past` never exceeds
`n_ctx`, and when `P ≤ n_ctx` the bound also reads as the integer
`n_ctx - P`.  The cap is the clamp of `n_predict` at line 891, computed
from the tokenized prompt before prefill starts. -/
theorem gptj_generate_decode_cap (vocab : GptVocab)
    (n_vocab vocabSize n_ctx : ℕ) (params : GenParams)
    (evalFn : ℕ → List ℕ → Option (List ℚ)) (cb : List Char → Bool)
    (draws : ℕ → ℕ) (E : ℚ → ℚ) (prompt : List Char) :
    (gptj_generate_run vocab n_vocab vocabSize n_ctx params evalFn cb draws E
        prompt).samples.length ≤ n_ctx - (gpt_tokenize vocab prompt).length ∧
    (gptj_generate_run vocab n_vocab vocabSize n_ctx params evalFn cb draws E
        prompt).finalNPast ≤ n_ctx ∧
    ((gpt_tokenize vocab prompt).length ≤ n_ctx →
      ((gptj_generate_run vocab n_vocab vocabSize n_ctx params evalFn cb draws
          E prompt).samples.length : ℤ) ≤
        (n_ctx : ℤ) - ((gpt_tokenize vocab prompt).length : ℤ)) := by
  rw [gptj_generate_run_eq, generate_bound_eq]
  have hcount := genLoop_samples_count
    ⟨vocab, n_vocab, vocabSize, gpt_tokenize vocab prompt,
      min ((gpt_tokenize vocab prompt).length + params.n_predict) n_ctx,
      params, evalFn, cb, draws, E⟩
    (min ((gpt_tokenize vocab prompt).length + params.n_predict) n_ctx)
    ⟨0, 0, [], (evalFn 0 [0, 1, 2, 3]).getD [], 0⟩
    ⟨[(0, [0, 1, 2, 3])], [], []⟩
  have hnp := genLoop_finalNPast
    ⟨vocab, n_vocab, vocabSize, gpt_tokenize vocab prompt,
      min ((gpt_tokenize vocab prompt).length + params.n_predict) n_ctx,
      params, evalFn, cb, draws, E⟩
    (min ((gpt_tokenize vocab prompt).length + params.n_predict) n_ctx)
    ⟨0, 0, [], (evalFn 0 [0, 1, 2, 3]).getD [], 0⟩
    ⟨[(0, [0, 1, 2, 3])], [], []⟩ rfl
  simp only [List.length_nil, Nat.add_zero, Nat.zero_max, Nat.zero_add,
    Nat.max_zero] at hcount hnp
  refine ⟨by omega, by omega, fun h => by omega⟩

/-- C4 (confirmed): whatever the prompt and the batch size, if the run
reaches a decode step at all, the first sampling event happens with
`n_past` equal to the prompt's tokenized length `P` — prefill has fed the
whole prompt, in batches whose sizes sum to `P`, before the first sample. -/
theorem gptj_generate_npast_after_prefill (vocab : GptVocab)
    (n_vocab vocabSize n_ctx : ℕ) (params : GenParams)
    (evalFn : ℕ → List ℕ → Option (List ℚ)) (cb : List Char → Bool)
    (draws : ℕ → ℕ) (E : ℚ → ℚ) (prompt : List Char) :
    ∀ s, (gptj_generate_run vocab n_vocab vocabSize n_ctx params evalFn cb
        draws E prompt).samples.head? = some s →
      s.1 = (gpt_tokenize vocab prompt).length := by
  intro s hs
  rw [gptj_generate_run_eq] at hs
  obtain ⟨l, hl, hfirst⟩ := genLoop_first_sample
    ⟨vocab, n_vocab, vocabSize, gpt_tokenize vocab prompt,
      ((((gpt_tokenize vocab prompt).length : ℤ)) +
        min ((params.n_predict : ℤ))
          ((n_ctx : ℤ) - ((gpt_tokenize vocab prompt).length : ℤ))).toNat,
      params, evalFn, cb, draws, E⟩
    (((((gpt_tokenize vocab prompt).length : ℤ)) +
      min ((params.n_predict : ℤ))
        ((n_ctx : ℤ) - ((gpt_tokenize vocab prompt).length : ℤ))).toNat)
    ⟨0, 0, [], (evalFn 0 [0, 1, 2, 3]).getD [], 0⟩
    ⟨[(0, [0, 1, 2, 3])], [], []⟩ rfl (by simp)
  rw [hl] at hs
  cases l with
  | nil => simp at hs
  | cons s2 lr =>
    simp only [List.nil_append, List.head?_cons, Option.some.injEq] at hs
    subst hs
    exact hfirst s2 lr rfl

/-- C10 (confirmed): on every call, before any prompt token is evaluated,
`gptj_generate` issues exactly one warm-up evaluator call with inputs
`0, 1, 2, 3` at `n_past = 0` (the head of the call trace); the warm-up does
not advance `n_past` — the next evaluator call, when one happens, still runs
at cache position 0; and `gptj_eval` writes `mem_per_token` from a call only
when it was previously zero, as `used / N`. -/
theorem gptj_generate_warmup_call (vocab : GptVocab)
    (n_vocab vocabSize n_ctx : ℕ) (params : GenParams)
    (evalFn : ℕ → List ℕ → Option (List ℚ)) (cb : List Char → Bool)
    (draws : ℕ → ℕ) (E : ℚ → ℚ) (prompt : List Char) :
    (gptj_generate_run vocab n_vocab vocabSize n_ctx params evalFn cb draws E
        prompt).evalCalls.head? = some (0, [0, 1, 2, 3]) ∧
    (∀ c, (gptj_generate_run vocab n_vocab vocabSize n_ctx params evalFn cb
        draws E prompt).evalCalls.get? 1 = some c → c.1 = 0) ∧
    (∀ N used, gptj_eval_mem_update 0 N used = used / N) ∧
    (∀ m N used, m ≠ 0 → gptj_eval_mem_update m N used = m) := by
  obtain ⟨l, hl, _, hh⟩ := genLoop_evalCalls_spec
    ⟨vocab, n_vocab, vocabSize, gpt_tokenize vocab prompt,
      ((((gpt_tokenize vocab prompt).length : ℤ)) +
        min ((params.n_predict : ℤ))
          ((n_ctx : ℤ) - ((gpt_tokenize vocab prompt).length : ℤ))).toNat,
      params, evalFn, cb, draws, E⟩
    (((((gpt_tokenize vocab prompt).length : ℤ)) +
      min ((params.n_predict : ℤ))
        ((n_ctx : ℤ) - ((gpt_tokenize vocab prompt).length : ℤ))).toNat)
    ⟨0, 0, [], (evalFn 0 [0, 1, 2, 3]).getD [], 0⟩
    ⟨[(0, [0, 1, 2, 3])], [], []⟩ (by simp)
  refine ⟨?_, ?_, ?_, ?_⟩
  · rw [gptj_generate_run_eq, hl]
    simp
  · intro c hc
    rw [gptj_generate_run_eq, hl] at hc
    simp only [List.singleton_append, List.get?_cons_succ] at hc
    rcases hh with rfl | ⟨lt, e, np, rfl, hnp⟩
    · simp at hc
    · simp only [List.get?_cons_zero, Option.some.injEq] at hc
      subst hc
      exact hnp
  · intro N used
    simp [gptj_eval_mem_update]
  · intro m N used hm
    simp [gptj_eval_mem_update, hm]

/-- On the stub logits `0, 0, 1` the `top_k = 1` sampler picks id 2 for any
positive temperature. -/
lemma sample_stub_toy (E : ℚ → ℚ) (tp temp : ℚ) (d : ℕ) (ht : 0 < temp) :
    gpt_sample_top_k_top_p E 3 ([0, 0, 1] : List ℚ) 1 tp temp d = 2 := by
  rw [gpt_sample_top_k_one_eq E 3 [0, 0, 1] tp temp d (by decide)]
  have hpairs : samplePairs [0, 0, 1] temp 3 =
      [(0, 0), (0, 1), (1 / temp, 2)] := by
    unfold samplePairs
    norm_num [List.range_succ]
  rw [hpairs]
  have hs : (0 : ℚ) < 1 / temp := by positivity
  simp only [firstMaxP, gt_iff_lt]
  rw [if_pos hs, if_pos hs]

/-- When the whole remainder fits (the bound is never exceeded), the fill
loop takes everything. -/
lemma fillBatchGo_all (B : ℕ) : ∀ (rem acc : List ℕ),
    rem.length + acc.length ≤ B → fillBatchGo B acc rem = acc ++ rem := by
  intro rem
  induction rem with
  | nil =>
    intro acc _
    simp [fillBatchGo]
  | cons t rest ih =>
    intro acc h
    simp only [fillBatchGo]
    rw [if_neg (by simp at h ⊢; omega)]
    have := ih (acc ++ [t]) (by simp at h ⊢; omega)
    rw [this]
    simp

/-- Prefill fills the whole two-token toy prompt in one batch whenever
`1 ≤ n_batch`. -/
lemma fillBatch_toy (nb : ℕ) (h : 1 ≤ nb) :
    fillBatch [0, 1] 0 nb = [0, 1] := by
  by_cases h2 : nb < 2
  · have he : nb = 1 := by omega
    subst he
    decide
  · unfold fillBatch
    rw [List.drop_zero]
    exact fillBatchGo_all nb [0, 1] [] (by simp; omega)

/-- Decode phase of the toy run: from any state at `2 ≤ i` with a non-empty
pending batch, every remaining iteration samples id 2 from the stubbed
evaluator, never matches the hardcoded end-of-text id 50256, invokes the
always-true callback once, and the loop ends only by exhausting the bound,
for a total of `bound - i` further callback invocations. -/
lemma toy_decode_loop (B nb np : ℕ) (tp temp : ℚ) (draws : ℕ → ℕ)
    (E : ℚ → ℚ) (ht : 0 < temp) : ∀ (fuel : ℕ) (st : GenSt) (acc : GenAcc),
    2 ≤ st.i → B ≤ st.i + fuel → st.embd ≠ [] →
    (genLoop ⟨toyVocab, 3, 3, [0, 1], B, ⟨np, 1, tp, temp, nb⟩, stubEval,
        (fun _ => true), draws, E⟩ fuel st acc).callbackCalls.length =
      acc.callbackCalls.length + (B - st.i) ∧
    (genLoop ⟨toyVocab, 3, 3, [0, 1], B, ⟨np, 1, tp, temp, nb⟩, stubEval,
        (fun _ => true), draws, E⟩ fuel st acc).ok = true ∧
    (∃ l2, (genLoop ⟨toyVocab, 3, 3, [0, 1], B, ⟨np, 1, tp, temp, nb⟩,
        stubEval, (fun _ => true), draws, E⟩ fuel st acc).samples =
        acc.samples ++ l2 ∧
      (st.i < B → l2.head? = some (st.n_past + st.embd.length, 2))) := by
  set C : GenCtx := ⟨toyVocab, 3, 3, [0, 1], B, ⟨np, 1, tp, temp, nb⟩,
    stubEval, (fun _ => true), draws, E⟩ with hC
  intro fuel
  induction fuel with
  | zero =>
    intro st acc h2 hB _
    refine ⟨?_, by simp [genLoop, mkRun],
      ⟨[], by simp [genLoop, mkRun], fun h => absurd h (by omega)⟩⟩
    simp [genLoop, mkRun]
    omega
  | succ fuel ih =>
    intro st acc h2 hB hne
    unfold genLoop
    by_cases hexit : C.bound ≤ st.i
    · rw [if_pos hexit]
      simp only [hC] at hexit
      refine ⟨?_, by simp [mkRun],
        ⟨[], by simp [mkRun], fun h => absurd h (by omega)⟩⟩
      simp only [mkRun]
      omega
    · rw [if_neg hexit]
      simp only [hC] at hexit
      refine genStep_elim2 C st acc (fun res =>
        (match res with
          | .halt r => r
          | .next st2 acc2 => genLoop C fuel st2 acc2).callbackCalls.length =
            acc.callbackCalls.length + (B - st.i) ∧
        (match res with
          | .halt r => r
          | .next st2 acc2 => genLoop C fuel st2 acc2).ok = true ∧
        (∃ l2, (match res with
          | .halt r => r
          | .next st2 acc2 => genLoop C fuel st2 acc2).samples =
            acc.samples ++ l2 ∧
          (st.i < B → l2.head? = some (st.n_past + st.embd.length, 2)))) ?_ ?_ ?_
      · intro _ hev
        rw [hC] at hev
        exact absurd hev (by simp [stubEval])
      · intro hE
        exact absurd hE hne
      · intro lg _ hev
        rw [hC] at hev
        have hlg : lg = [0, 0, 1] := by
          have h5 : some ([0, 0, 1] : List ℚ) = some lg := hev
          injection h5 with h6
          exact h6.symm
        subst hlg
        refine afterEval_elim C st _ [0, 0, 1] (fun res =>
          (match res with
            | .halt r => r
            | .next st2 acc2 =>
                genLoop C fuel st2 acc2).callbackCalls.length =
              acc.callbackCalls.length + (B - st.i) ∧
          (match res with
            | .halt r => r
            | .next st2 acc2 => genLoop C fuel st2 acc2).ok = true ∧
          (∃ l2, (match res with
            | .halt r => r
            | .next st2 acc2 => genLoop C fuel st2 acc2).samples =
              acc.samples ++ l2 ∧
            (st.i < B → l2.head? = some (st.n_past + st.embd.length, 2))))
          ?_ ?_ ?_ ?_ ?_
        · intro hpf _
          rw [hC] at hpf
          simp only [List.length_cons, List.length_nil] at hpf
          omega
        · intro hpf _
          rw [hC] at hpf
          simp only [List.length_cons, List.length_nil] at hpf
          omega
        · intro _ id hid heot
          have h2id : id = 2 := by
            rw [hid, hC]
            exact sample_stub_toy E tp temp (draws st.k) ht
          rw [h2id] at heot
          exact absurd heot (by decide)
        · intro _ id hid _ hcb
          rw [hC] at hcb
          exact absurd hcb (by simp)
        · intro _ id hid _ _
          have h2id : id = 2 := by
            rw [hid, hC]
            exact sample_stub_toy E tp temp (draws st.k) ht
          subst h2id
          have hIH := ih
            ⟨st.i + 1, st.n_past + st.embd.length, [2], [0, 0, 1], st.k + 1⟩
            ⟨acc.evalCalls ++ [(st.n_past, st.embd)],
              acc.samples ++ [(st.n_past + st.embd.length, 2)],
              acc.callbackCalls ++ [(C.vocab.idToToken 2).getD []]⟩
            (by simp; omega) (by simp [hC]; omega) (by simp)
          obtain ⟨hcbl, hok, l2, hsam, _⟩ := hIH
          refine ⟨?_, hok, ⟨(st.n_past + st.embd.length, 2) :: l2, ?_,
            fun _ => rfl⟩⟩
          · rw [hcbl]
            simp only [List.length_append, List.length_cons, List.length_nil]
            omega
          · rw [hsam]
            simp

/-- End-to-end toy run: with the three-token vocabulary, the stubbed
evaluator that always favors id 2, `top_k = 1`, any positive temperature and
an always-continuing callback, `gptj_generate` on the prompt `hi there`
invokes the callback exactly `min n_predict (n_ctx - 2)` times and returns
success: the sampled toy end-of-text id 2 never matches the hardcoded 50256,
so only the token budget stops the loop.  When at least one decode step fits
the budget, the first sample is id 2 at `n_past = 2`. -/
lemma toy_run_spec (np n_ctx nb : ℕ) (tp temp : ℚ) (draws : ℕ → ℕ)
    (E : ℚ → ℚ) (hnb : 1 ≤ nb) (ht : 0 < temp) :
    (gptj_generate_run toyVocab 3 3 n_ctx ⟨np, 1, tp, temp, nb⟩ stubEval
        (fun _ => true) draws E toyPrompt).callbackCalls.length =
      min np (n_ctx - 2) ∧
    (gptj_generate_run toyVocab 3 3 n_ctx ⟨np, 1, tp, temp, nb⟩ stubEval
        (fun _ => true) draws E toyPrompt).ok = true ∧
    (2 + 1 ≤ min (2 + np) n_ctx →
      (gptj_generate_run toyVocab 3 3 n_ctx ⟨np, 1, tp, temp, nb⟩ stubEval
        (fun _ => true) draws E toyPrompt).samples.head? = some (2, 2)) := by
  have htok : gpt_tokenize toyVocab toyPrompt = [0, 1] := by decide
  have hlen : ([0, 1] : List ℕ).length = 2 := rfl
  rw [gptj_generate_run_eq, htok, hlen, generate_bound_eq]
  cases hB : min (2 + np) n_ctx with
  | zero =>
    refine ⟨?_, by simp [genLoop, mkRun], fun h => by omega⟩
    simp [genLoop, mkRun]
    omega
  | succ B2 =>
    have hgs : genStep
        ⟨toyVocab, 3, 3, [0, 1], B2 + 1, ⟨np, 1, tp, temp, nb⟩, stubEval,
          (fun _ => true), draws, E⟩
        ⟨0, 0, [], (stubEval 0 [0, 1, 2, 3]).getD [], 0⟩
        ⟨[(0, [0, 1, 2, 3])], [], []⟩ =
        .next ⟨0 + (fillBatch [0, 1] 0 nb).length, 0 + ([] : List ℕ).length,
          fillBatch [0, 1] 0 nb, (stubEval 0 [0, 1, 2, 3]).getD [], 0⟩
        ⟨[(0, [0, 1, 2, 3])], [], []⟩ := by
      simp only [genStep, if_true]
      simp only [afterEval]
      rw [if_pos (by decide : (0 : ℕ) < ([0, 1] : List ℕ).length)]
      rw [if_neg (by rw [fillBatch_toy nb hnb]; decide)]
    have h01 : genLoop
        ⟨toyVocab, 3, 3, [0, 1], B2 + 1, ⟨np, 1, tp, temp, nb⟩, stubEval,
          (fun _ => true), draws, E⟩ (B2 + 1)
        ⟨0, 0, [], (stubEval 0 [0, 1, 2, 3]).getD [], 0⟩
        ⟨[(0, [0, 1, 2, 3])], [], []⟩ =
        genLoop
        ⟨toyVocab, 3, 3, [0, 1], B2 + 1, ⟨np, 1, tp, temp, nb⟩, stubEval,
          (fun _ => true), draws, E⟩ B2
        ⟨0 + (fillBatch [0, 1] 0 nb).length, 0 + ([] : List ℕ).length,
          fillBatch [0, 1] 0 nb, (stubEval 0 [0, 1, 2, 3]).getD [], 0⟩
        ⟨[(0, [0, 1, 2, 3])], [], []⟩ := by
      simp only [genLoop]
      rw [if_neg (by simp), hgs]
    rw [h01]
    have hdec := toy_decode_loop (B2 + 1) nb np tp temp draws E ht B2
      ⟨0 + (fillBatch [0, 1] 0 nb).length, 0 + ([] : List ℕ).length,
        fillBatch [0, 1] 0 nb, (stubEval 0 [0, 1, 2, 3]).getD [], 0⟩
      ⟨[(0, [0, 1, 2, 3])], [], []⟩
      (by rw [fillBatch_toy nb hnb]; decide)
      (by simp only; rw [fillBatch_toy nb hnb]; simp; omega)
      (by rw [fillBatch_toy nb hnb]; decide)
    obtain ⟨hcbl, hok, l2, hsam, hhead⟩ := hdec
    refine ⟨?_, hok, ?_⟩
    · rw [hcbl, fillBatch_toy nb hnb]
      simp only [List.length_cons, List.length_nil]
      omega
    · intro h3
      rw [hsam]
      have hh2 := hhead (by simp only; rw [fillBatch_toy nb hnb]; simp; omega)
      rw [fillBatch_toy nb hnb] at hh2
      simp only [List.nil_append]
      rw [hh2]
      norm_num

/-- C1 (corrected) counterexample: with the toy vocabulary (end-of-text id
2) and a forward pass stubbed to give id 2 the maximal logit, the claim says
`gptj_generate` on prompt `hi there` invokes the callback exactly once and
stops.  It does not: the loop's end-of-text test compares against the
hardcoded id 50256 (gptj.cpp lines 952 and 960), which the toy id 2 never
equals, so with `n_predict = 2` the callback fires twice (once per decode
step, with the `<eot>` text) and generation stops only on the token
budget. -/
theorem gptj_generate_toy_eot_counterexample :
    (gptj_generate_run toyVocab 3 3 2048 ⟨2, 1, 9 / 10, 1, 8⟩ stubEval
        (fun _ => true) (fun _ => 0) (fun _ => 1)
        toyPrompt).callbackCalls.length = 2 ∧
    (gptj_generate_run toyVocab 3 3 2048 ⟨2, 1, 9 / 10, 1, 8⟩ stubEval
        (fun _ => true) (fun _ => 0) (fun _ => 1)
        toyPrompt).callbackCalls.length ≠ 1 := by
  have h := toy_run_spec 2 2048 8 (9 / 10) 1 (fun _ => 0) (fun _ => 1)
    (by omega) (by norm_num)
  have h2 : min 2 (2048 - 2) = 2 := by norm_num
  rw [h2] at h
  exact ⟨h.1, by rw [h.1]; decide⟩

/-- C1 (corrected, amended): for the toy vocabulary and the stubbed forward
pass favoring id 2, `gptj_generate` with prompt `hi there`, `top_k = 1`, a
positive temperature and an always-continuing callback invokes the callback
once per decode step — `min n_predict (n_ctx - 2)` times in total — and
returns success; it never stops on the toy end-of-text id, because the
generation loop compares sampled ids against the hardcoded end-of-text id
50256 rather than the vocabulary's own. -/
theorem gptj_generate_toy_eot_mismatch (np n_ctx nb : ℕ) (tp temp : ℚ)
    (draws : ℕ → ℕ) (E : ℚ → ℚ) (hnb : 1 ≤ nb) (ht : 0 < temp) :
    (gptj_generate_run toyVocab 3 3 n_ctx ⟨np, 1, tp, temp, nb⟩ stubEval
        (fun _ => true) draws E toyPrompt).callbackCalls.length =
      min np (n_ctx - 2) ∧
    (gptj_generate_run toyVocab 3 3 n_ctx ⟨np, 1, tp, temp, nb⟩ stubEval
        (fun _ => true) draws E toyPrompt).ok = true := by
  obtain ⟨h1, h2, _⟩ := toy_run_spec np n_ctx nb tp temp draws E hnb ht
  exact ⟨h1, h2⟩

/-- Witness for C1: with `n_predict = 1` and `n_ctx = 2048` the callback
fires exactly `min 1 2046 = 1` time and the run succeeds. -/
theorem gptj_generate_toy_eot_mismatch_witness :
    (gptj_generate_run toyVocab 3 3 2048 ⟨1, 1, 9 / 10, 1, 8⟩ stubEval
        (fun _ => true) (fun _ => 0) (fun _ => 1)
        toyPrompt).callbackCalls.length = min 1 (2048 - 2) ∧
    (gptj_generate_run toyVocab 3 3 2048 ⟨1, 1, 9 / 10, 1, 8⟩ stubEval
        (fun _ => true) (fun _ => 0) (fun _ => 1) toyPrompt).ok = true :=
  gptj_generate_toy_eot_mismatch 1 2048 8 (9 / 10) 1 (fun _ => 0)
    (fun _ => 1) (by omega) (by norm_num)

/-- In the toy run with `n_predict = 1` and `n_batch = 1`, the evaluator
call right after the warm-up is the first prefill batch: both prompt tokens
at cache position 0. -/
lemma toy_second_call :
    (gptj_generate_run toyVocab 3 3 2048 ⟨1, 1, 9 / 10, 1, 1⟩ stubEval
        (fun _ => true) (fun _ => 0) (fun _ => 1)
        toyPrompt).evalCalls.get? 1 = some (0, [0, 1]) := by
  have h01 : gptj_generate_run toyVocab 3 3 2048 ⟨1, 1, 9 / 10, 1, 1⟩
      stubEval (fun _ => true) (fun _ => 0) (fun _ => 1) toyPrompt =
      genLoop
        ⟨toyVocab, 3, 3, [0, 1], 3, ⟨1, 1, 9 / 10, 1, 1⟩, stubEval,
          (fun _ => true), (fun _ => 0), (fun _ => 1)⟩ 2
        ⟨2, 0, [0, 1], [0, 0, 1], 0⟩ ⟨[(0, [0, 1, 2, 3])], [], []⟩ := rfl
  rw [h01, show (2 : ℕ) = 1 + 1 from rfl]
  simp only [genLoop]
  rw [if_neg (by decide)]
  have hgs2 : genStep
      ⟨toyVocab, 3, 3, [0, 1], 3, ⟨1, 1, 9 / 10, 1, 1⟩, stubEval,
        (fun _ => true), (fun _ => 0), (fun _ => 1)⟩
      ⟨2, 0, [0, 1], [0, 0, 1], 0⟩ ⟨[(0, [0, 1, 2, 3])], [], []⟩ =
      afterEval
        ⟨toyVocab, 3, 3, [0, 1], 3, ⟨1, 1, 9 / 10, 1, 1⟩, stubEval,
          (fun _ => true), (fun _ => 0), (fun _ => 1)⟩
        ⟨2, 0, [0, 1], [0, 0, 1], 0⟩
        ⟨[(0, [0, 1, 2, 3]), (0, [0, 1])], [], []⟩ [0, 0, 1] := rfl
  rw [hgs2]
  refine afterEval_elim _ _ _ [0, 0, 1] (fun res =>
    (match res with
      | .halt r => r
      | .next st2 acc2 => genLoop
          ⟨toyVocab, 3, 3, [0, 1], 3, ⟨1, 1, 9 / 10, 1, 1⟩, stubEval,
            (fun _ => true), (fun _ => 0), (fun _ => 1)⟩ 1 st2
          acc2).evalCalls.get? 1 = some (0, [0, 1])) ?_ ?_ ?_ ?_ ?_
  · intro h _
    exact absurd h (by decide)
  · intro h _
    exact absurd h (by decide)
  · intro _ id _ _
    rfl
  · intro _ id _ _ _
    rfl
  · intro _ id _ _ _
    obtain ⟨l, hl, _, _⟩ := genLoop_evalCalls_spec
      ⟨toyVocab, 3, 3, [0, 1], 3, ⟨1, 1, 9 / 10, 1, 1⟩, stubEval,
        (fun _ => true), (fun _ => 0), (fun _ => 1)⟩ 1
      ⟨2 + 1, 0 + ([0, 1] : List ℕ).length, [id], [0, 0, 1], 0 + 1⟩
      ⟨[(0, [0, 1, 2, 3]), (0, [0, 1])],
        [] ++ [(0 + ([0, 1] : List ℕ).length, id)],
        [] ++ [(toyVocab.idToToken id).getD []]⟩ (by simp)
    simp only at hl
    rw [hl]
    rw [List.get?_append (by decide :
      (1 : ℕ) < ([(0, [0, 1, 2, 3]), (0, [0, 1])] :
        List (ℕ × List ℕ)).length)]
    decide

/-- C2 (corrected) counterexample: with `n_batch = 1` and the two-token toy
prompt, the first prefill evaluator call (the call right after the warm-up)
receives both prompt tokens — 2 ids, exceeding `n_batch`: the claim that
every prefill call carries at most `n_batch` ids is false. -/
theorem gptj_generate_prefill_batch_counterexample :
    (gptj_generate_run toyVocab 3 3 2048 ⟨1, 1, 9 / 10, 1, 1⟩ stubEval
        (fun _ => true) (fun _ => 0) (fun _ => 1)
        toyPrompt).evalCalls.get? 1 = some (0, [0, 1]) ∧
    ¬(((0, [0, 1]) : ℕ × List ℕ)).2.length ≤ 1 :=
  ⟨toy_second_call, by decide⟩

/-- Witness for C2: the first prefill call of the toy run with
`n_batch = 1` carries 2 ids, within the corrected bound `n_batch + 1`. -/
theorem gptj_generate_prefill_batch_bound_witness :
    (((0, [0, 1]) : ℕ × List ℕ)).2.length ≤ 1 + 1 := by
  have hmem : ((0, [0, 1]) : ℕ × List ℕ) ∈
      (gptj_generate_run toyVocab 3 3 2048 ⟨1, 1, 9 / 10, 1, 1⟩ stubEval
        (fun _ => true) (fun _ => 0) (fun _ => 1)
        toyPrompt).evalCalls.drop 1 := by
    have h0 : ((gptj_generate_run toyVocab 3 3 2048 ⟨1, 1, 9 / 10, 1, 1⟩
        stubEval (fun _ => true) (fun _ => 0) (fun _ => 1)
        toyPrompt).evalCalls.drop 1).get? 0 = some (0, [0, 1]) := by
      rw [List.get?_drop, Nat.add_zero]
      exact toy_second_call
    exact List.get?_mem h0
  exact gptj_generate_prefill_batch_bound toyVocab 3 3 2048
    ⟨1, 1, 9 / 10, 1, 1⟩ stubEval (fun _ => true) (fun _ => 0) (fun _ => 1)
    toyPrompt (0, [0, 1]) hmem

/-- Witness for C3: on the toy run the decode count, final `n_past` and the
integer-form bound all hold at `n_ctx = 2048`. -/
theorem gptj_generate_decode_cap_witness :
    (gptj_generate_run toyVocab 3 3 2048 ⟨1, 1, 9 / 10, 1, 1⟩ stubEval
        (fun _ => true) (fun _ => 0) (fun _ => 1)
        toyPrompt).samples.length ≤
      2048 - (gpt_tokenize toyVocab toyPrompt).length ∧
    (gptj_generate_run toyVocab 3 3 2048 ⟨1, 1, 9 / 10, 1, 1⟩ stubEval
        (fun _ => true) (fun _ => 0) (fun _ => 1)
        toyPrompt).finalNPast ≤ 2048 ∧
    ((gptj_generate_run toyVocab 3 3 2048 ⟨1, 1, 9 / 10, 1, 1⟩ stubEval
        (fun _ => true) (fun _ => 0) (fun _ => 1)
        toyPrompt).samples.length : ℤ) ≤
      (2048 : ℤ) - ((gpt_tokenize toyVocab toyPrompt).length : ℤ) := by
  obtain ⟨h1, h2, h3⟩ := gptj_generate_decode_cap toyVocab 3 3 2048
    ⟨1, 1, 9 / 10, 1, 1⟩ stubEval (fun _ => true) (fun _ => 0) (fun _ => 1)
    toyPrompt
  exact ⟨h1, h2, h3 (by decide)⟩

/-- Witness for C4: the toy run does reach a decode step; its first sample
happens at `n_past = 2`, the tokenized length of `hi there`. -/
theorem gptj_generate_npast_after_prefill_witness :
    (gptj_generate_run toyVocab 3 3 2048 ⟨1, 1, 9 / 10, 1, 1⟩ stubEval
        (fun _ => true) (fun _ => 0) (fun _ => 1)
        toyPrompt).samples.head? = some (2, 2) ∧
    ((2, 2) : ℕ × ℕ).1 = (gpt_tokenize toyVocab toyPrompt).length := by
  have hh := (toy_run_spec 1 2048 1 (9 / 10) 1 (fun _ => 0) (fun _ => 1)
    (by omega) (by norm_num)).2.2 (by norm_num)
  exact ⟨hh, gptj_generate_npast_after_prefill toyVocab 3 3 2048
    ⟨1, 1, 9 / 10, 1, 1⟩ stubEval (fun _ => true) (fun _ => 0) (fun _ => 1)
    toyPrompt (2, 2) hh⟩

/-- Witness for C10: in the toy run the call trace starts with the warm-up
`(0, [0, 1, 2, 3])`, the following call still runs at cache position 0, and
the `mem_per_token` update writes `64 / 4` when the old value is zero and
keeps a non-zero old value 7. -/
theorem gptj_generate_warmup_call_witness :
    (gptj_generate_run toyVocab 3 3 2048 ⟨1, 1, 9 / 10, 1, 1⟩ stubEval
        (fun _ => true) (fun _ => 0) (fun _ => 1)
        toyPrompt).evalCalls.head? = some (0, [0, 1, 2, 3]) ∧
    (((0, [0, 1]) : ℕ × List ℕ)).1 = 0 ∧
    gptj_eval_mem_update 0 4 64 = 64 / 4 ∧
    gptj_eval_mem_update 7 4 64 = 7 := by
  obtain ⟨h1, h2, h3, h4⟩ := gptj_generate_warmup_call toyVocab 3 3 2048
    ⟨1, 1, 9 / 10, 1, 1⟩ stubEval (fun _ => true) (fun _ => 0) (fun _ => 1)
    toyPrompt
  exact ⟨h1, h2 (0, [0, 1]) toy_second_call, h3 4 64, h4 7 4 64 (by decide)⟩

/-- Witness for C5 (amended): for the toy vocabulary the word `hi` is a
single splitter word mapping to id 0 in both directions, so tokenizing its
decoded text returns `[0]`. -/
theorem gpt_tokenize_roundtrip_first_id_witness :
    toyVocab.idToToken 0 = some ['h', 'i'] ∧
    toyVocab.tokenToId ['h', 'i'] = some 0 ∧
    splitWords ['h', 'i'] = [['h', 'i']] ∧
    gpt_tokenize toyVocab ['h', 'i'] = [0] :=
  ⟨by decide, by decide, by decide,
    gpt_tokenize_roundtrip_first_id toyVocab 0 ['h', 'i'] (by decide)
      (by decide) (by decide)⟩
